import Mathlib

/-
Verification development for the strict-store library: a typed key-value
persistence layer over the two browser storage areas.  The model below is a
shallow embedding of the library's source:

  * src/strict-json.ts   (strictJson.parse / stringify, replacer, reviver)
  * src/lib.ts           (typeHandlers: BigIntData, MapData, SetData, TypedArrayData)
  * src/types.ts         (Serializable taxonomy, TYPED_ARRAY_CONSTRUCTORS)
  * src/utils.ts         (getFullName, KEY_PATTERN, deepMergeWithCollections)
  * src/strict-store.ts  (StrictStore facade: get/save/merge/has/getAll/clear/
                          remove/onChange, createKey)

JavaScript numbers are modelled as integers (the library stores finite numbers
through JSON, which round-trips them exactly); JSON.parse/JSON.stringify of a
JSON tree is modelled as the identity on trees, with the raw wire string kept
alongside its parse result.
-/

namespace SS

/-- JS digit character for a value below ten, as produced by
BigInt.prototype.toString(10). -/
def digitChr (n : Nat) : Char := Char.ofNat (48 + n)

/-- Numeric value of a decimal digit character. -/
def digitVal (c : Char) : Nat := c.toNat - 48

/-- Recognizes the characters 0..9. -/
def isDigitChr (c : Char) : Bool := decide (48 ≤ c.toNat) && decide (c.toNat ≤ 57)

/-- Fuel-driven accumulator loop computing the decimal digits of a natural
number, most significant digit first. -/
def natDecAux (fuel n : Nat) (acc : List Char) : List Char :=
  match fuel with
  | 0 => acc
  | fuel + 1 =>
    if n < 10 then digitChr n :: acc
    else natDecAux fuel (n / 10) (digitChr (n % 10) :: acc)

/-- Decimal digits of a natural number (JS Number/BigInt toString). -/
def natDec (n : Nat) : List Char := natDecAux (n + 1) n []

/-- Decimal form of an integer, mirroring BigInt.prototype.toString: an
optional leading minus sign followed by the digits of the absolute value. -/
def intDec (n : Int) : List Char :=
  if n < 0 then '-' :: natDec n.natAbs else natDec n.toNat

/-- Value of a digit run, most significant digit first. -/
def decDigitsVal (cs : List Char) : Nat := cs.foldl (fun a c => a * 10 + digitVal c) 0

/-- Parse of a nonempty all-digit run.  This is the shape BigInt(string)
accepts among the strings the encoder emits; other strings make BigInt throw
a SyntaxError, modelled as a parse failure. -/
def parseNatDec (cs : List Char) : Option Nat :=
  if cs = [] then none
  else if cs.all isDigitChr then some (decDigitsVal cs) else none

/-- Parse of an optionally minus-signed decimal string, mirroring
BigInt(string) on the outputs of intDec. -/
def parseIntDec (cs : List Char) : Option Int :=
  match cs with
  | [] => none
  | c :: rest =>
    if c = '-' then
      match parseNatDec rest with
      | none => none
      | some m => some (-(m : Int))
    else
      match parseNatDec cs with
      | none => none
      | some m => some ((m : Int))

/-- The eleven fixed-width numeric array variants listed in
TYPED_ARRAY_CONSTRUCTORS (src/types.ts). -/
inductive TypedKind where
  | i8 | u8 | u8c | i16 | u16 | i32 | u32 | f32 | f64 | bi64 | bu64
deriving DecidableEq, Repr

/-- value.constructor.name for each variant, written as the wrapper's subtype
by TypedArrayData (src/lib.ts). -/
def TypedKind.ctorName : TypedKind → String
  | .i8 => "Int8Array"
  | .u8 => "Uint8Array"
  | .u8c => "Uint8ClampedArray"
  | .i16 => "Int16Array"
  | .u16 => "Uint16Array"
  | .i32 => "Int32Array"
  | .u32 => "Uint32Array"
  | .f32 => "Float32Array"
  | .f64 => "Float64Array"
  | .bi64 => "BigInt64Array"
  | .bu64 => "BigUint64Array"

/-- The TYPED_ARRAY_CONSTRUCTORS record lookup by subtype name. -/
def ctorOfName (s : String) : Option TypedKind :=
  if s = "Int8Array" then some .i8
  else if s = "Uint8Array" then some .u8
  else if s = "Uint8ClampedArray" then some .u8c
  else if s = "Int16Array" then some .i16
  else if s = "Uint16Array" then some .u16
  else if s = "Int32Array" then some .i32
  else if s = "Uint32Array" then some .u32
  else if s = "Float32Array" then some .f32
  else if s = "Float64Array" then some .f64
  else if s = "BigInt64Array" then some .bi64
  else if s = "BigUint64Array" then some .bu64
  else none

/-- The two 64-bit integer variants, whose elements travel as decimal strings
(TypedArrayData maps them through toString). -/
def TypedKind.isBig : TypedKind → Bool
  | .bi64 => true
  | .bu64 => true
  | _ => false

/-- ToUintN conversion (modular reduction) applied by the unsigned typed-array
constructors to each incoming element. -/
def wrapU (w : Nat) (n : Int) : Int := n % ((2 : Int) ^ w)

/-- ToIntN conversion applied by the signed typed-array constructors. -/
def wrapS (w : Nat) (n : Int) : Int := wrapU w (n + 2 ^ (w - 1)) - 2 ^ (w - 1)

/-- ToUint8Clamp on the integer-valued numbers of the model. -/
def clamp255 (n : Int) : Int := if n < 0 then 0 else if 255 < n then 255 else n

/-- Element conversion performed by new Constructor(array) for each variant.
The float variants are exact on the integer-valued doubles of the model. -/
def TypedKind.convert : TypedKind → Int → Int
  | .i8 => wrapS 8
  | .u8 => wrapU 8
  | .u8c => clamp255
  | .i16 => wrapS 16
  | .u16 => wrapU 16
  | .i32 => wrapS 32
  | .u32 => wrapU 32
  | .f32 => id
  | .f64 => id
  | .bi64 => wrapS 64
  | .bu64 => wrapU 64

/-- Range of element values a variant's backing store can hold: the invariant
every real typed array of that variant satisfies. -/
def TypedKind.inRange : TypedKind → Int → Bool
  | .i8 => fun n => decide (-128 ≤ n) && decide (n < 128)
  | .u8 => fun n => decide (0 ≤ n) && decide (n < 256)
  | .u8c => fun n => decide (0 ≤ n) && decide (n < 256)
  | .i16 => fun n => decide (-32768 ≤ n) && decide (n < 32768)
  | .u16 => fun n => decide (0 ≤ n) && decide (n < 65536)
  | .i32 => fun n => decide (-(2 ^ 31) ≤ n) && decide (n < 2 ^ 31)
  | .u32 => fun n => decide (0 ≤ n) && decide (n < 2 ^ 32)
  | .f32 => fun _ => true
  | .f64 => fun _ => true
  | .bi64 => fun n => decide (-(2 ^ 63) ≤ n) && decide (n < 2 ^ 63)
  | .bu64 => fun n => decide (0 ≤ n) && decide (n < 2 ^ 64)

/-- In-memory Serializable values (src/types.ts): JSON primitives, plain
objects and arrays, plus the four extended kinds.  JS numbers are modelled as
integers and typed-array contents as integer lists. -/
inductive Value where
  | str (s : String)
  | num (n : Int)
  | boolV (b : Bool)
  | nullV
  | obj (fields : List (String × Value))
  | arr (elems : List Value)
  | bigI (n : Int)
  | mapV (pairs : List (Value × Value))
  | setV (elems : List Value)
  | typed (k : TypedKind) (elems : List Int)

/-- JSON trees: the image of JSON.parse on well-formed wire strings. -/
inductive Json where
  | null
  | bool (b : Bool)
  | num (n : Int)
  | str (s : String)
  | arr (elems : List Json)
  | obj (fields : List (String × Json))

/-- Key membership in an object node, as tested by the reviver's
'__type' in value && 'value' in value check. -/
def hasKey {α : Type} (fields : List (String × α)) (key : String) : Bool :=
  fields.any (fun p => p.1 == key)

/-- Property access on an object node (first binding wins; JSON.parse keeps a
single binding per key). -/
def lookupField {α : Type} : List (String × α) → String → Option α
  | [], _ => none
  | (k, v) :: fs, key => if k == key then some v else lookupField fs key

/-- JSON form of one typed-array element: the 64-bit variants as decimal
strings, the rest as JSON numbers (TypedArrayData). -/
def encTypedElem (k : TypedKind) (e : Int) : Json :=
  if k.isBig then .str (String.mk (intDec e)) else .num e

mutual
/-- The strictJson replacer combined with JSON.stringify's own recursion: big
integers, maps, sets and typed arrays become tagged wrapper objects (the
typeHandlers of src/lib.ts), everything else passes through recursively. -/
def encode : Value → Json
  | .str s => .str s
  | .num n => .num n
  | .boolV b => .bool b
  | .nullV => .null
  | .obj fields => .obj (encodeFields fields)
  | .arr elems => .arr (encodeElems elems)
  | .bigI n => .obj [("__type", .str "bigint"), ("value", .str (String.mk (intDec n)))]
  | .mapV pairs => .obj [("__type", .str "map"), ("value", .arr (encodePairs pairs))]
  | .setV elems => .obj [("__type", .str "set"), ("value", .arr (encodeElems elems))]
  | .typed k elems => .obj [("__type", .str "typedArray"),
      ("value", .arr (elems.map (encTypedElem k))), ("subtype", .str k.ctorName)]
def encodeFields : List (String × Value) → List (String × Json)
  | [] => []
  | (k, v) :: fs => (k, encode v) :: encodeFields fs
def encodeElems : List Value → List Json
  | [] => []
  | v :: vs => encode v :: encodeElems vs
def encodePairs : List (Value × Value) → List Json
  | [] => []
  | (a, b) :: ps => .arr [encode a, encode b] :: encodePairs ps
end

mutual
/-- No plain-object node of the value carries both a '__type' and a 'value'
field.  Such a node is structurally indistinguishable from a tagged wrapper
on the wire (the collision sharp edge the spec flags). -/
def collisionFree : Value → Bool
  | .obj fields => (!(hasKey fields "__type" && hasKey fields "value"))
      && collisionFreeFields fields
  | .arr elems => collisionFreeList elems
  | .mapV pairs => collisionFreePairs pairs
  | .setV elems => collisionFreeList elems
  | _ => true
def collisionFreeFields : List (String × Value) → Bool
  | [] => true
  | (_, v) :: fs => collisionFree v && collisionFreeFields fs
def collisionFreeList : List Value → Bool
  | [] => true
  | v :: vs => collisionFree v && collisionFreeList vs
def collisionFreePairs : List (Value × Value) → Bool
  | [] => true
  | (a, b) :: ps => collisionFree a && (collisionFree b && collisionFreePairs ps)
end

mutual
/-- Every typed-array node holds only element values its backing store can
represent: the invariant every real typed array satisfies. -/
def typedOk : Value → Bool
  | .typed k elems => elems.all k.inRange
  | .obj fields => typedOkFields fields
  | .arr elems => typedOkList elems
  | .mapV pairs => typedOkPairs pairs
  | .setV elems => typedOkList elems
  | _ => true
def typedOkFields : List (String × Value) → Bool
  | [] => true
  | (_, v) :: fs => typedOk v && typedOkFields fs
def typedOkList : List Value → Bool
  | [] => true
  | v :: vs => typedOk v && typedOkList vs
def typedOkPairs : List (Value × Value) → Bool
  | [] => true
  | (a, b) :: ps => typedOk a && (typedOk b && typedOkPairs ps)
end

/-- BigInt(value.value) in the reviver's bigint branch.  The encoder emits
decimal strings; a numeric payload is converted exactly, other payloads throw
in JS. -/
def reviveBigInt : Option Value → Except String Value
  | some (.str s) =>
    match parseIntDec s.data with
    | some n => .ok (.bigI n)
    | none => .error "SyntaxError: Cannot convert string to a BigInt"
  | some (.num n) => .ok (.bigI n)
  | _ => .error "TypeError: Cannot convert value to a BigInt"

/-- Entry extraction of new Map(iterable) for the entry arrays the encoder
emits; non-entry elements make the Map constructor throw. -/
def toMapPairs : List Value → Except String (List (Value × Value))
  | [] => .ok []
  | .arr [a, b] :: rest =>
    match toMapPairs rest with
    | .ok ps => .ok ((a, b) :: ps)
    | .error e => .error e
  | _ :: _ => .error "TypeError: iterator value is not an entry object"

/-- new Map(value.value): an array payload is read as entry pairs, a map
payload is copied; other payloads are not iterable and throw. -/
def reviveMap : Option Value → Except String Value
  | some (.arr entries) =>
    match toMapPairs entries with
    | .ok ps => .ok (.mapV ps)
    | .error e => .error e
  | some (.mapV ps) => .ok (.mapV ps)
  | _ => .error "TypeError: map payload is not iterable"

/-- new Set(value.value): an array payload lists the members, a set payload is
copied; other payloads are not iterable and throw. -/
def reviveSet : Option Value → Except String Value
  | some (.arr elems) => .ok (.setV elems)
  | some (.setV elems) => .ok (.setV elems)
  | _ => .error "TypeError: set payload is not iterable"

/-- One element of new Constructor(array): 64-bit variants read decimal
strings back through BigInt coercion, the others take the numbers the encoder
emits (foreign string-to-number coercions are outside the model). -/
def toTypedElem (k : TypedKind) : Value → Except String Int
  | .str s =>
    if k.isBig then
      match parseIntDec s.data with
      | some n => .ok (k.convert n)
      | none => .error "SyntaxError: Cannot convert string to a BigInt"
    else .error "string element for a non-bigint numeric array"
  | .num n =>
    if k.isBig then .error "TypeError: Cannot convert a number to a BigInt"
    else .ok (k.convert n)
  | _ => .error "TypeError: typed array element"

def toTypedElems (k : TypedKind) : List Value → Except String (List Int)
  | [] => .ok []
  | v :: vs =>
    match toTypedElem k v, toTypedElems k vs with
    | .ok n, .ok ns => .ok (n :: ns)
    | .error e, _ => .error e
    | _, .error e => .error e

/-- The reviver's typedArray branch: TYPED_ARRAY_CONSTRUCTORS[value.subtype]
lookup — a miss throws 'Unsupported TypedArray type' — then
new Constructor(value.value). -/
def reviveTypedArray (subtype payload : Option Value) : Except String Value :=
  match subtype with
  | some (.str sname) =>
    match ctorOfName sname with
    | some k =>
      match payload with
      | some (.arr elems) =>
        match toTypedElems k elems with
        | .ok es => .ok (.typed k es)
        | .error e => .error e
      | _ => .error "TypeError: typed array payload"
    | none => .error ("Unsupported TypedArray type: " ++ sname)
  | _ => .error "Unsupported TypedArray type: undefined"

/-- The reviver's switch on value.__type; an unknown tag throws
'Unknown __type' (the switch default). -/
def reviveTag (fields : List (String × Value)) : Except String Value :=
  match lookupField fields "__type" with
  | some (.str tag) =>
    if tag = "bigint" then reviveBigInt (lookupField fields "value")
    else if tag = "map" then reviveMap (lookupField fields "value")
    else if tag = "set" then reviveSet (lookupField fields "value")
    else if tag = "typedArray" then
      reviveTypedArray (lookupField fields "subtype") (lookupField fields "value")
    else .error ("Unknown __type: " ++ tag)
  | _ => .error "Unknown __type: non-string tag"

/-- Wrapper detection of the reviver on an already-revived object node: an
object with both '__type' and 'value' fields is dispatched as a tagged
wrapper, any other object is returned as a plain object. -/
def reviveNode (fields : List (String × Value)) : Except String Value :=
  if hasKey fields "__type" && hasKey fields "value" then reviveTag fields
  else .ok (.obj fields)

mutual
/-- The strictJson reviver as run by JSON.parse: bottom-up over the JSON tree,
children revived before their parent node is inspected. -/
def revive : Json → Except String Value
  | .null => .ok .nullV
  | .bool b => .ok (.boolV b)
  | .num n => .ok (.num n)
  | .str s => .ok (.str s)
  | .arr elems =>
    match reviveList elems with
    | .ok vs => .ok (.arr vs)
    | .error e => .error e
  | .obj fields =>
    match reviveFields fields with
    | .ok fs => reviveNode fs
    | .error e => .error e
def reviveList : List Json → Except String (List Value)
  | [] => .ok []
  | j :: js =>
    match revive j, reviveList js with
    | .ok v, .ok vs => .ok (v :: vs)
    | .error e, _ => .error e
    | _, .error e => .error e
def reviveFields : List (String × Json) → Except String (List (String × Value))
  | [] => .ok []
  | (k, j) :: fs =>
    match revive j, reviveFields fs with
    | .ok v, .ok vs => .ok ((k, v) :: vs)
    | .error e, _ => .error e
    | _, .error e => .error e
end

/-- Hexadecimal digit character (lowercase), for \u00xx escapes. -/
def hexDigitChr (n : Nat) : Char := if n < 10 then digitChr n else Char.ofNat (87 + n)

/-- JSON.stringify's escaping of one character inside a string literal. -/
def escapeChar (c : Char) : List Char :=
  if c = '"' then ['\\', '"']
  else if c = '\\' then ['\\', '\\']
  else if c = Char.ofNat 8 then ['\\', 'b']
  else if c = Char.ofNat 9 then ['\\', 't']
  else if c = Char.ofNat 10 then ['\\', 'n']
  else if c = Char.ofNat 12 then ['\\', 'f']
  else if c = Char.ofNat 13 then ['\\', 'r']
  else if c.toNat < 32 then
    ['\\', 'u', '0', '0', hexDigitChr (c.toNat / 16), hexDigitChr (c.toNat % 16)]
  else [c]

/-- A JSON string literal for s, as JSON.stringify prints it. -/
def jsonQuote (s : String) : String :=
  String.mk ('"' :: s.data.foldr (fun c acc => escapeChar c ++ acc) ['"'])

mutual
/-- JSON.stringify of a JSON tree: the wire text. -/
def printJson : Json → String
  | .null => "null"
  | .bool true => "true"
  | .bool false => "false"
  | .num n => String.mk (intDec n)
  | .str s => jsonQuote s
  | .arr elems => "[" ++ printJsonElems elems ++ "]"
  | .obj fields => "\x7b" ++ printJsonFields fields ++ "\x7d"
def printJsonElems : List Json → String
  | [] => ""
  | [j] => printJson j
  | j :: js => printJson j ++ "," ++ printJsonElems js
def printJsonFields : List (String × Json) → String
  | [] => ""
  | [(k, j)] => jsonQuote k ++ ":" ++ printJson j
  | (k, j) :: fs => jsonQuote k ++ ":" ++ printJson j ++ "," ++ printJsonFields fs
end

/-- A raw stored string paired with the result JSON.parse would give on it:
some tree when the string is valid JSON, none when parsing itself throws. -/
structure Wire where
  raw : String
  parsed : Option Json

/-- strictJson.stringify: JSON.stringify with the replacer installed. -/
def stringifyWire (v : Value) : Wire := ⟨printJson (encode v), some (encode v)⟩

/-- strictJson.parse: JSON.parse with the reviver, inside a try/catch whose
catch returns the input string unchanged.  Both a JSON syntax error and an
error thrown by the reviver land in that catch. -/
def strictJsonParse (w : Wire) : Value :=
  match w.parsed with
  | none => .str w.raw
  | some j =>
    match revive j with
    | .ok v => v
    | .error _ => .str w.raw

/-- One browser storage area: ordered string-keyed entries.  Keys are unique
in a real Storage; enumeration follows list order. -/
abbrev Area := List (String × Wire)

def getItem (a : Area) (key : String) : Option Wire :=
  match a.find? (fun e => e.1 == key) with
  | some e => some e.2
  | none => none

def setItem (a : Area) (key : String) (w : Wire) : Area :=
  if a.any (fun e => e.1 == key) then
    a.map (fun e => if e.1 == key then (key, w) else e)
  else a ++ [(key, w)]

def removeItem (a : Area) (key : String) : Area :=
  a.filter (fun e => !(e.1 == key))

/-- The StoreType union 'local' | 'session'. -/
inductive StoreType where
  | lcl
  | ses
deriving DecidableEq, Repr

/-- The two storage areas the library works against. -/
structure StoreState where
  lclArea : Area
  sesArea : Area

/-- getStorage (src/utils.ts): picks localStorage or sessionStorage. -/
def getStorage (s : StoreState) : StoreType → Area
  | .lcl => s.lclArea
  | .ses => s.sesArea

def putStorage (s : StoreState) : StoreType → Area → StoreState
  | .lcl, a => ⟨a, s.sesArea⟩
  | .ses, a => ⟨s.lclArea, a⟩

/-- A StoreKey without its phantom type parameter (which carries no runtime
value). -/
structure SKey where
  ns : String
  name : String
  storeType : StoreType
deriving DecidableEq, Repr

/-- getFullName (src/utils.ts): the wire key strict-store/ns:name. -/
def getFullName (ns name : String) : String := "strict-store/" ++ ns ++ ":" ++ name

/-- Leading-run test over char lists (String.prototype.startsWith). -/
def hasPfx : List Char → List Char → Bool
  | [], _ => true
  | _ :: _, [] => false
  | c :: p, d :: l => c == d && hasPfx p l

def strStarts (s pat : String) : Bool := hasPfx pat.data s.data

/-- Line terminators, which '.' in a JS regular expression without the s flag
never matches. -/
def isLineTerm (c : Char) : Bool :=
  c == Char.ofNat 10 || c == Char.ofNat 13 ||
    c == Char.ofNat 0x2028 || c == Char.ofNat 0x2029

/-- Split at the first colon; the [^:]+ group of KEY_PATTERN can only end at
the first colon of the input. -/
def splitColon : List Char → Option (List Char × List Char)
  | [] => none
  | c :: rest =>
    if c == ':' then some ([], rest)
    else
      match splitColon rest with
      | some (ns, name) => some (c :: ns, name)
      | none => none

/-- The KEY_PATTERN regular expression ^strict-store\/([^:]+):(.+)$ as a
parser: the fixed prefix, a nonempty colon-free namespace, the colon, then a
nonempty name every character of which '.' can match — so a name containing a
line terminator makes the whole pattern fail. -/
def parseKeyChars (cs : List Char) : Option (List Char × List Char) :=
  if hasPfx "strict-store/".data cs then
    match splitColon (cs.drop 13) with
    | some (ns, name) =>
      if !ns.isEmpty && (!name.isEmpty && name.all (fun c => !(isLineTerm c))) then
        some (ns, name)
      else none
    | none => none
  else none

/-- KEY_PATTERN.exec on a raw storage key, as run by getAll, onChange and
parseStoreKey. -/
def parseStoreKeyStr (raw : String) : Option (String × String) :=
  match parseKeyChars raw.data with
  | some (ns, name) => some (String.mk ns, String.mk name)
  | none => none

/-- strict-store/ns: — the namespace filtering prefix built by getAll,
onChange and resolveTargets. -/
def nsPfxOf (n : String) : String := "strict-store/" ++ n ++ ":"

/-- A getAll result entry. -/
structure SEntry where
  key : SKey
  value : Value
  storageType : StoreType

/-- An element of a typed array as the JS value its indexed getter reads
out: a bigint for the 64-bit big variants, a number otherwise. -/
def elemVal (k : TypedKind) (e : Int) : Value :=
  if k.isBig then .bigI e else .num e

/-- The combine step of lodash baseMerge/baseMergeDeep for a field whose
existing value is a primitive (for example a number or bigint read out of a
typed array): the customizer is consulted, and when it declines the incoming
value wins — lodash never merges into a non-object existing value, and where
it deep-clones an incoming plain object, array or typed array over a
primitive the clone is value-equal to the source in the model. -/
def mergePrimElem (cust : Value → Value → Option Value) (old sv : Value) : Value :=
  match cust old sv with
  | some v => v
  | none => sv

/-- Index-wise merge where one side's elements come out of a typed array
(lodash copies the typed-array target into a plain array, or writes the
typed-array source element-wise): at each shared index the combine step
never recurses because one side is a primitive, extra target elements are
kept, extra source elements are appended. -/
def mergeArrPrim (cust : Value → Value → Option Value) :
    List Value → List Value → List Value
  | ta, [] => ta
  | [], sa => sa
  | t :: ta, s :: sa => mergePrimElem cust t s :: mergeArrPrim cust ta sa

/-- A source-object key read as a canonical array index: JS treats exactly
the canonical decimal strings ('0', '1', …, no leading zeros, no sign) as
index accessors on arrays and typed arrays; every other key is an ordinary
(expando) property. -/
def parseIdxKey (key : String) : Option Nat :=
  match parseNatDec key.data with
  | some i => if String.mk (natDec i) = key then some i else none
  | none => none

/-- Field lookup by canonical array index key. -/
def lookupIdx (sf : List (String × Value)) (i : Nat) : Option Value :=
  lookupField sf (String.mk (natDec i))

/-- The length an array grows to when a plain-object source carrying
out-of-range canonical index keys is merged into it. -/
def arrExtTargetLen (baseLen : Nat) (sf : List (String × Value)) : Nat :=
  sf.foldl
    (fun m p =>
      match parseIdxKey p.1 with
      | some i => if baseLen ≤ i then max m (i + 1) else m
      | none => m)
    baseLen

/-- The slots an array gains past its original length when a plain-object
source is merged into it: at a written canonical index the existing slot is
undefined, so the customizer declines and the incoming value is deep-cloned
in (value-equal to itself in the model); the holes left between written
indices read back as undefined, which JSON.stringify — the only way the
store observes the merged value — serializes as null, so the model carries
them as the null value. -/
def arrExtension (baseLen : Nat) (sf : List (String × Value)) : List Value :=
  (List.range (arrExtTargetLen baseLen sf - baseLen)).map
    (fun j =>
      match lookupIdx sf (baseLen + j) with
      | some sv => sv
      | none => .nullV)

/-- The elements of a typed array after a plain-object source is merged into
it: lodash keeps the typed array itself (newValue = objValue) and assigns
each source key through the typed array's setter.  A canonical in-range
index whose combined incoming value is a number (for the number variants) or
a bigint (for the 64-bit big variants) overwrites the element through the
variant's conversion; writes past the length are silently ignored by the
setter, and non-index keys become expando properties invisible to the
elements and to the codec.  A number written to a big variant or a bigint
written to a number variant throws a TypeError inside the JS merge, and the
remaining setter inputs (strings, booleans, objects) go through the
ToNumber/ToBigInt coercions; both are outside the Value model, which keeps
the element unchanged there. -/
def typedIdxWrites (cust : Value → Value → Option Value) (k : TypedKind) :
    Nat → List Int → List (String × Value) → List Int
  | _, [], _ => []
  | i, e :: es, sf =>
    (match lookupIdx sf i with
     | some sv =>
       match mergePrimElem cust (elemVal k e) sv with
       | .num n => if k.isBig then e else k.convert n
       | .bigI n => if k.isBig then k.convert n else e
       | _ => e
     | none => e) :: typedIdxWrites cust k (i + 1) es sf

mutual
/-- The per-field combine of lodash 4.17 mergeWith (baseMerge's field step
together with baseMergeDeep): the customizer is consulted first; when it
declines, the branch structure follows baseMergeDeep's dispatch on the
incoming value.  An incoming array merges index-wise into an existing array
(newValue = objValue), into a plain-array copy of an existing typed array
(which is array-like, so copyArray runs), and over anything else into a
fresh array — a deep clone, value-equal to the source.  An incoming typed
array merges element-wise into an existing array, turns both into a merged
plain array when the existing value is also array-like, and otherwise
replaces as a clone (cloneTypedArray).  An incoming plain object recurses
into an existing plain object; merges into an existing array through its
canonical index keys (non-index keys become expando properties on the array,
which the codec never serializes, so the model drops them); lands only
expando properties on an existing Map or Set, whose entries live in internal
slots rather than own properties and are therefore untouched; writes through
the element setter of an existing typed array; and over a primitive becomes
a fresh deep clone of itself.  Any other incoming value — a primitive,
bigint, Map or Set the customizer declined — replaces the existing one
(isCommon = false in baseMergeDeep).  A plain object carrying a numeric
'length' field is array-like to lodash and would be element-copied; the
model treats every plain object as a non-array-like object. -/
def lodashMergeWith (cust : Value → Value → Option Value) (old new : Value) : Value :=
  match cust old new with
  | some v => v
  | none =>
    match old, new with
    | .obj tf, .obj sf =>
      .obj (mergedTargetFields cust tf sf ++ sf.filter (fun p => !(hasKey tf p.1)))
    | .arr ta, .arr sa => .arr (lodashMergeArr cust ta sa)
    | .typed k te, .arr sa => .arr (mergeArrPrim cust (te.map (elemVal k)) sa)
    | _, .arr sa => .arr sa
    | .arr ta, .typed k se => .arr (mergeArrPrim cust ta (se.map (elemVal k)))
    | .typed k0 te, .typed k se =>
      .arr (mergeArrPrim cust (te.map (elemVal k0)) (se.map (elemVal k)))
    | _, .typed k se => .typed k se
    | .arr ta, .obj sf =>
      .arr (mergeFieldsIntoArr cust 0 ta sf ++ arrExtension ta.length sf)
    | .mapV ps, .obj _ => .mapV ps
    | .setV l, .obj _ => .setV l
    | .typed k te, .obj sf => .typed k (typedIdxWrites cust k 0 te sf)
    | _, .obj sf => .obj sf
    | _, _ => new
  termination_by structural old
def mergedTargetFields (cust : Value → Value → Option Value) :
    List (String × Value) → List (String × Value) → List (String × Value)
  | [], _ => []
  | (k, tv) :: tf, sf =>
    (match lookupField sf k with
     | some sv => (k, lodashMergeWith cust tv sv)
     | none => (k, tv)) :: mergedTargetFields cust tf sf
  termination_by structural tf _ => tf
def lodashMergeArr (cust : Value → Value → Option Value) :
    List Value → List Value → List Value
  | [], sa => sa
  | t :: ta, [] => t :: ta
  | t :: ta, s :: sa => lodashMergeWith cust t s :: lodashMergeArr cust ta sa
  termination_by structural ta _ => ta
def mergeFieldsIntoArr (cust : Value → Value → Option Value) :
    Nat → List Value → List (String × Value) → List Value
  | _, [], _ => []
  | i, t :: ta, sf =>
    (match lookupIdx sf i with
     | some sv => lodashMergeWith cust t sv
     | none => t) :: mergeFieldsIntoArr cust (i + 1) ta sf
  termination_by structural _ ta _ => ta
end

/-- The customizer of deepMergeWithCollections (src/utils.ts): when both sides
are arrays, both sets, both maps, or both typed arrays, the incoming value is
returned (wholesale replacement); undefined otherwise, deferring to the
lodash default. -/
def collectionsCustomizer : Value → Value → Option Value
  | .arr _, .arr b => some (.arr b)
  | .setV _, .setV b => some (.setV b)
  | .mapV _, .mapV b => some (.mapV b)
  | .typed _ _, .typed k b => some (.typed k b)
  | _, _ => none

/-- The own enumerable properties of a value, as lodash keysIn/baseMerge
enumerates them: a plain object's fields; the indexed elements of an array
or typed array under their canonical index keys (both are array-like, so
arrayLikeKeys yields the indices); nothing for a Map or Set, whose entries
live in internal slots rather than own properties, and nothing for
primitives. -/
def idxFields : Nat → List Value → List (String × Value)
  | _, [] => []
  | i, v :: vs => (String.mk (natDec i), v) :: idxFields (i + 1) vs

def ownPropsObj : Value → List (String × Value)
  | .obj fs => fs
  | .arr l => idxFields 0 l
  | .typed k es => idxFields 0 (es.map (elemVal k))
  | _ => []

/-- deepMergeWithCollections (src/utils.ts): mergeWith({}, target, source,
customizer).  baseMerge first copies target's own enumerable properties into
the fresh object (at every key the existing value is undefined, so the
customizer declines and the property is deep-cloned in, value-equal to the
original), then merges source's own enumerable properties into that object
key by key through the customizer and baseMergeDeep — which is exactly the
plain-object field merge of lodashMergeWith. -/
def deepMergeWithCollections (target src : Value) : Value :=
  .obj (mergedTargetFields collectionsCustomizer (ownPropsObj target) (ownPropsObj src)
    ++ (ownPropsObj src).filter (fun p => !(hasKey (ownPropsObj target) p.1)))

/-- typeof v === 'object' (note typeof null is also 'object' in JS). -/
def jsTypeofObject : Value → Bool
  | .obj _ => true
  | .arr _ => true
  | .mapV _ => true
  | .setV _ => true
  | .typed _ _ => true
  | .nullV => true
  | _ => false

def isArrayV : Value → Bool
  | .arr _ => true
  | _ => false

def isNullV : Value → Bool
  | .nullV => true
  | _ => false

def mergeMsgInit : String :=
  "StrictStore.merge: Cannot initialize the object. Use StrictStore.save for initial value."

def mergeMsgPlain : String := "StrictStore.merge: Can only merge into plain objects"

namespace StrictStore

/-- StrictStore.get: absent key gives null, a present key is decoded.  The JS
method returns the null value for an absent key, so absence and a stored null
produce the same result. -/
def get (s : StoreState) (k : SKey) : Value :=
  match getItem (getStorage s k.storeType) (getFullName k.ns k.name) with
  | none => .nullV
  | some w => strictJsonParse w

/-- StrictStore.save: encode and write unconditionally. -/
def save (s : StoreState) (k : SKey) (v : Value) : StoreState :=
  putStorage s k.storeType
    (setItem (getStorage s k.storeType) (getFullName k.ns k.name) (stringifyWire v))

/-- StrictStore.has on a single key. -/
def has (s : StoreState) (k : SKey) : Bool :=
  (getItem (getStorage s k.storeType) (getFullName k.ns k.name)).isSome

/-- StrictStore.remove: delete each key from its area. -/
def remove (s : StoreState) (keys : List SKey) : StoreState :=
  keys.foldl
    (fun st k =>
      putStorage st k.storeType
        (removeItem (getStorage st k.storeType) (getFullName k.ns k.name)))
    s

/-- The per-entry body of getAll's scan loop: prefix filter, then the
KEY_PATTERN parse, then decode. -/
def entryOf (st : StoreType) (pfxs : List String) (e : String × Wire) : Option SEntry :=
  if pfxs.any (fun p => strStarts e.1 p) then
    match parseStoreKeyStr e.1 with
    | some (ns, name) => some ⟨⟨ns, name, st⟩, strictJsonParse e.2, st⟩
    | none => none
  else none

/-- StrictStore.getAll: an explicit empty namespace list returns empty
immediately; otherwise both areas are scanned, local before session. -/
def getAll (s : StoreState) (ns : Option (List String)) : List SEntry :=
  match ns with
  | some [] => []
  | _ =>
    let pfxs :=
      match ns with
      | some l => l.map nsPfxOf
      | none => ["strict-store/"]
    s.lclArea.filterMap (entryOf .lcl pfxs) ++ s.sesArea.filterMap (entryOf .ses pfxs)

/-- StrictStore.size. -/
def size (s : StoreState) (ns : Option (List String)) : Nat := (getAll s ns).length

/-- StrictStore.clear: an explicit empty namespace list is a no-op; otherwise
every entry getAll returns is removed. -/
def clear (s : StoreState) (ns : Option (List String)) : StoreState :=
  match ns with
  | some [] => s
  | _ => (getAll s ns).foldl (fun st e => remove st [e.key]) s

/-- StrictStore.merge: read, check the preconditions, deep-merge, write. -/
def merge (s : StoreState) (k : SKey) (patch : Value) : Except String StoreState :=
  match getItem (getStorage s k.storeType) (getFullName k.ns k.name) with
  | none => .error mergeMsgInit
  | some w =>
    let current := strictJsonParse w
    if isNullV current then .error mergeMsgInit
    else if !(jsTypeofObject current) || isArrayV current then .error mergeMsgPlain
    else
      .ok (putStorage s k.storeType
        (setItem (getStorage s k.storeType) (getFullName k.ns k.name)
          (stringifyWire (deepMergeWithCollections current patch))))

end StrictStore

/-- A browser StorageEvent as seen by the onChange handler. -/
structure SEvent where
  key : Option String
  newValue : Option Wire
  oldValue : Option Wire
  storageArea : StoreType

/-- The target argument of onChange: omitted, an array of StoreKeys, or an
array of namespaces. -/
inductive OnTarget where
  | omitted
  | keys (l : List SKey)
  | nss (l : List String)

/-- Target resolution at the top of StrictStore.onChange (resolveTargets in
src/utils.ts computes the same pair): omitted leaves both filters undefined,
an empty array sets both to the empty list, a StoreKey array resolves to
exact wire keys, a namespace array to wire prefixes. -/
def resolveTargets : OnTarget → Option (List String) × Option (List String)
  | .omitted => (none, none)
  | .keys [] => (some [], some [])
  | .nss [] => (some [], some [])
  | .keys l => (some (l.map (fun k => getFullName k.ns k.name)), none)
  | .nss l => (none, some (l.map nsPfxOf))

/-- The storage-event handler installed by onChange: the callback invocation
(key, newValue, oldValue, storageType) when the event passes every filter,
none when the handler returns without firing. -/
def onChangeHandler (keyNames nsPrefixes : Option (List String)) (e : SEvent) :
    Option (SKey × Value × Value × StoreType) :=
  match e.key with
  | none => none
  | some k =>
    if !(strStarts k "strict-store/") then none
    else
      let pass :=
        match keyNames with
        | some l => l.contains k
        | none =>
          match nsPrefixes with
          | some l => l.any (fun p => strStarts k p)
          | none => true
      if !pass then none
      else
        match parseStoreKeyStr k with
        | none => none
        | some (ns, name) =>
          let newV := match e.newValue with
            | some w => strictJsonParse w
            | none => Value.nullV
          let oldV := match e.oldValue with
            | some w => strictJsonParse w
            | none => Value.nullV
          some (⟨ns, name, e.storageArea⟩, newV, oldV, e.storageArea)

/-- onChange as observed through one incoming event: resolve the target, then
run the handler. -/
def onChangeFires (target : OnTarget) (e : SEvent) :
    Option (SKey × Value × Value × StoreType) :=
  onChangeHandler (resolveTargets target).1 (resolveTargets target).2 e

/-- ns.includes(':'): whether the string contains the delimiter character. -/
def strContainsColon (s : String) : Bool := s.data.any (fun c => c == ':')

/-- createKey (src/strict-store.ts): construction-time validation — the ':'
check first, then the emptiness check; a valid pair yields the key verbatim. -/
def createKey (ns name : String) (st : StoreType) : Except String SKey :=
  if strContainsColon ns = true ∨ strContainsColon name = true then
    .error "Namespace and name must not contain the \":\" character."
  else if ns.length = 0 ∨ name.length = 0 then
    .error "The name or namespace cannot be empty."
  else .ok ⟨ns, name, st⟩

/-- createKey with the storeType parameter left to its default 'local'. -/
def createKeyDefault (ns name : String) : Except String SKey := createKey ns name .lcl

/-- typeof v is 'number', 'string', 'boolean' or 'bigint': the non-object
shapes merge's type guard rejects. -/
def isPrimitiveV : Value → Bool
  | .str _ => true
  | .num _ => true
  | .boolV _ => true
  | .bigI _ => true
  | _ => false

/-- The field list of merging two plain objects: target fields (merged where
the source also has the key) followed by the source-only fields. -/
def mergeObjFields (tf sf : List (String × Value)) : List (String × Value) :=
  mergedTargetFields collectionsCustomizer tf sf
    ++ sf.filter (fun p => !(hasKey tf p.1))

def isObjV : Value → Bool
  | .obj _ => true
  | _ => false

def isTypedV : Value → Bool
  | .typed _ _ => true
  | _ => false

theorem digitVal_digitChr {n : Nat} (h : n < 10) : digitVal (digitChr n) = n := by
  interval_cases n <;> rfl

theorem isDigitChr_digitChr {n : Nat} (h : n < 10) : isDigitChr (digitChr n) = true := by
  interval_cases n <;> rfl

theorem natDecAux_append (fuel : Nat) : ∀ n acc,
    natDecAux fuel n acc = natDecAux fuel n [] ++ acc := by
  induction fuel with
  | zero => intro n acc; rfl
  | succ fuel ih =>
    intro n acc
    by_cases h : n < 10
    · simp [natDecAux, h]
    · simp only [natDecAux, h, if_false]
      rw [ih (n / 10) (digitChr (n % 10) :: acc), ih (n / 10) [digitChr (n % 10)]]
      simp

theorem natDecAux_all_digits (fuel : Nat) : ∀ n,
    (natDecAux fuel n []).all isDigitChr = true := by
  induction fuel with
  | zero => intro n; rfl
  | succ fuel ih =>
    intro n
    by_cases h : n < 10
    · simp [natDecAux, h, isDigitChr_digitChr]
    · simp only [natDecAux, h, if_false]
      rw [natDecAux_append]
      simp [ih, isDigitChr_digitChr (Nat.mod_lt n (by norm_num))]

theorem natDecAux_ne_nil (fuel n : Nat) (hf : 0 < fuel) :
    natDecAux fuel n [] ≠ [] := by
  cases fuel with
  | zero => omega
  | succ fuel =>
    by_cases h : n < 10
    · simp [natDecAux, h]
    · simp only [natDecAux, h, if_false]
      rw [natDecAux_append]
      simp

theorem natDecAux_foldl (fuel : Nat) : ∀ n a, n < 10 ^ fuel →
    (natDecAux fuel n []).foldl (fun a c => a * 10 + digitVal c) a
      = a * 10 ^ (natDecAux fuel n []).length + n := by
  induction fuel with
  | zero =>
    intro n a h
    simp at h
    simp [natDecAux, h]
  | succ fuel ih =>
    intro n a h
    by_cases h10 : n < 10
    · simp [natDecAux, h10, digitVal_digitChr h10]
    · have hdiv : n / 10 < 10 ^ fuel := by
        rw [Nat.div_lt_iff_lt_mul (by norm_num)]
        rw [pow_succ] at h
        exact h
      simp only [natDecAux, h10, if_false]
      rw [natDecAux_append]
      rw [List.foldl_append, ih (n / 10) a hdiv]
      have hm : digitVal (digitChr (n % 10)) = n % 10 :=
        digitVal_digitChr (Nat.mod_lt n (by norm_num))
      simp only [List.foldl_cons, List.foldl_nil, hm, List.length_append,
        List.length_cons, List.length_nil]
      calc (a * 10 ^ (natDecAux fuel (n / 10) []).length + n / 10) * 10 + n % 10
          = a * (10 ^ (natDecAux fuel (n / 10) []).length * 10)
              + (10 * (n / 10) + n % 10) := by ring
        _ = a * 10 ^ ((natDecAux fuel (n / 10) []).length + (0 + 1)) + n := by
              rw [Nat.div_add_mod]; ring_nf

theorem parseNatDec_natDec (n : Nat) : parseNatDec (natDec n) = some n := by
  have hne : natDec n ≠ [] := natDecAux_ne_nil (n + 1) n (Nat.succ_pos n)
  have hall : (natDec n).all isDigitChr = true := natDecAux_all_digits (n + 1) n
  have hlt : n < 10 ^ (n + 1) :=
    lt_of_lt_of_le (Nat.lt_pow_self (by norm_num) n)
      (Nat.pow_le_pow_right (by norm_num) (Nat.le_succ n))
  rw [parseNatDec, if_neg hne, if_pos hall]
  rw [decDigitsVal, natDec, natDecAux_foldl (n + 1) n 0 hlt]
  simp

theorem natDec_not_minus (n : Nat) : ∀ rest, natDec n ≠ '-' :: rest := by
  intro rest h
  have hall : (natDec n).all isDigitChr = true := natDecAux_all_digits (n + 1) n
  rw [h] at hall
  simp [List.all_cons] at hall
  exact absurd hall.1 (by decide)

theorem parseIntDec_intDec (n : Int) : parseIntDec (intDec n) = some n := by
  by_cases h : n < 0
  · simp only [intDec, h, if_true, parseIntDec, if_pos rfl, parseNatDec_natDec]
    congr 1
    omega
  · simp only [intDec, h, if_false]
    rcases hc : natDec n.toNat with _ | ⟨c, rest⟩
    · exact absurd hc (natDecAux_ne_nil (n.toNat + 1) n.toNat (Nat.succ_pos _))
    · have hcm : ¬ c = '-' := by
        intro habs
        rw [habs] at hc
        exact natDec_not_minus n.toNat rest hc
      simp only [parseIntDec, if_neg hcm, ← hc, parseNatDec_natDec]
      congr 1
      omega

theorem ctorOfName_ctorName (k : TypedKind) : ctorOfName k.ctorName = some k := by
  cases k <;> rfl

theorem convert_of_inRange {k : TypedKind} {n : Int} (h : k.inRange n = true) :
    k.convert n = n := by
  cases k <;>
    simp only [TypedKind.inRange, TypedKind.convert, wrapS, wrapU, clamp255,
      Bool.and_eq_true, decide_eq_true_eq, id_eq] at h ⊢ <;>
    norm_num <;>
    omega

theorem Value.inductionOn (motive : Value → Prop)
    (hstr : ∀ s, motive (.str s))
    (hnum : ∀ n, motive (.num n))
    (hbool : ∀ b, motive (.boolV b))
    (hnull : motive .nullV)
    (hobj : ∀ fields, (∀ p ∈ fields, motive p.2) → motive (.obj fields))
    (harr : ∀ elems, (∀ v ∈ elems, motive v) → motive (.arr elems))
    (hbig : ∀ n, motive (.bigI n))
    (hmap : ∀ pairs, (∀ p ∈ pairs, motive p.1 ∧ motive p.2) → motive (.mapV pairs))
    (hset : ∀ elems, (∀ v ∈ elems, motive v) → motive (.setV elems))
    (htyped : ∀ k elems, motive (.typed k elems)) :
    ∀ v, motive v :=
  @Value.rec motive
    (fun fs => ∀ p ∈ fs, motive p.2)
    (fun l => ∀ v ∈ l, motive v)
    (fun ps => ∀ p ∈ ps, motive p.1 ∧ motive p.2)
    (fun p => motive p.2)
    (fun p => motive p.1 ∧ motive p.2)
    hstr hnum hbool hnull hobj harr hbig hmap hset htyped
    (fun p hp => absurd hp (List.not_mem_nil p))
    (fun head _ mh mt p hp => by
      rcases List.mem_cons.mp hp with h | h
      · exact h ▸ mh
      · exact mt p h)
    (fun v hv => absurd hv (List.not_mem_nil v))
    (fun head _ mh mt v hv => by
      rcases List.mem_cons.mp hv with h | h
      · exact h ▸ mh
      · exact mt v h)
    (fun p hp => absurd hp (List.not_mem_nil p))
    (fun head _ mh mt p hp => by
      rcases List.mem_cons.mp hp with h | h
      · exact h ▸ mh
      · exact mt p h)
    (fun _ _ m => m)
    (fun _ _ m1 m2 => ⟨m1, m2⟩)

theorem collisionFreeFields_iff (fs : List (String × Value)) :
    collisionFreeFields fs = true ↔ ∀ p ∈ fs, collisionFree p.2 = true := by
  induction fs with
  | nil => simp [collisionFreeFields]
  | cons p fs ih => cases p; simp [collisionFreeFields, ih]

theorem collisionFreeList_iff (l : List Value) :
    collisionFreeList l = true ↔ ∀ v ∈ l, collisionFree v = true := by
  induction l with
  | nil => simp [collisionFreeList]
  | cons v l ih => simp [collisionFreeList, ih]

theorem collisionFreePairs_iff (ps : List (Value × Value)) :
    collisionFreePairs ps = true ↔
      ∀ p ∈ ps, collisionFree p.1 = true ∧ collisionFree p.2 = true := by
  induction ps with
  | nil => simp [collisionFreePairs]
  | cons p ps ih => cases p; simp [collisionFreePairs, ih, and_assoc]

theorem typedOkFields_iff (fs : List (String × Value)) :
    typedOkFields fs = true ↔ ∀ p ∈ fs, typedOk p.2 = true := by
  induction fs with
  | nil => simp [typedOkFields]
  | cons p fs ih => cases p; simp [typedOkFields, ih]

theorem typedOkList_iff (l : List Value) :
    typedOkList l = true ↔ ∀ v ∈ l, typedOk v = true := by
  induction l with
  | nil => simp [typedOkList]
  | cons v l ih => simp [typedOkList, ih]

theorem typedOkPairs_iff (ps : List (Value × Value)) :
    typedOkPairs ps = true ↔ ∀ p ∈ ps, typedOk p.1 = true ∧ typedOk p.2 = true := by
  induction ps with
  | nil => simp [typedOkPairs]
  | cons p ps ih => cases p; simp [typedOkPairs, ih, and_assoc]

theorem reviveFields_encodeFields (fs : List (String × Value))
    (h : ∀ p ∈ fs, revive (encode p.2) = .ok p.2) :
    reviveFields (encodeFields fs) = .ok fs := by
  induction fs with
  | nil => rfl
  | cons p fs ih =>
    cases p with
    | mk k v =>
      have hv := h (k, v) (List.mem_cons_self _ _)
      have hrest := ih (fun q hq => h q (List.mem_cons_of_mem _ hq))
      simp only [encodeFields, reviveFields]
      rw [hv, hrest]

theorem reviveList_encodeElems (l : List Value)
    (h : ∀ v ∈ l, revive (encode v) = .ok v) :
    reviveList (encodeElems l) = .ok l := by
  induction l with
  | nil => rfl
  | cons v l ih =>
    have hv := h v (List.mem_cons_self _ _)
    have hrest := ih (fun w hw => h w (List.mem_cons_of_mem _ hw))
    simp only [encodeElems, reviveList]
    rw [hv, hrest]

theorem reviveList_encodePairs (ps : List (Value × Value))
    (h : ∀ p ∈ ps, revive (encode p.1) = .ok p.1 ∧ revive (encode p.2) = .ok p.2) :
    reviveList (encodePairs ps) = .ok (ps.map (fun p => Value.arr [p.1, p.2])) := by
  induction ps with
  | nil => rfl
  | cons p ps ih =>
    cases p with
    | mk a b =>
      have hab := h (a, b) (List.mem_cons_self _ _)
      have hrest := ih (fun q hq => h q (List.mem_cons_of_mem _ hq))
      simp only [encodePairs, reviveList, List.map_cons]
      rw [show revive (.arr [encode a, encode b]) = .ok (.arr [a, b]) by
        simp only [revive, reviveList]
        rw [hab.1, hab.2]]
      rw [hrest]

theorem toMapPairs_entries (ps : List (Value × Value)) :
    toMapPairs (ps.map (fun p => Value.arr [p.1, p.2])) = .ok ps := by
  induction ps with
  | nil => rfl
  | cons p ps ih =>
    cases p
    simp only [List.map_cons, toMapPairs]
    rw [ih]

theorem reviveList_typedElems (k : TypedKind) (es : List Int) :
    reviveList (es.map (encTypedElem k))
      = .ok (es.map (fun e =>
          if k.isBig then Value.str (String.mk (intDec e)) else Value.num e)) := by
  induction es with
  | nil => rfl
  | cons e es ih =>
    simp only [List.map_cons, encTypedElem]
    by_cases hb : k.isBig <;>
      simp only [hb, if_true, if_false, Bool.false_eq_true, reviveList, revive, ih]

theorem toTypedElems_decoded (k : TypedKind) (es : List Int)
    (h : es.all k.inRange = true) :
    toTypedElems k (es.map (fun e =>
        if k.isBig then Value.str (String.mk (intDec e)) else Value.num e))
      = .ok es := by
  induction es with
  | nil => rfl
  | cons e es ih =>
    simp only [List.all_cons, Bool.and_eq_true] at h
    have hconv : k.convert e = e := convert_of_inRange h.1
    have hrest := ih h.2
    simp only [List.map_cons]
    by_cases hb : k.isBig
    · simp only [hb, if_true] at hrest ⊢
      simp only [toTypedElems, toTypedElem, hb, if_true, parseIntDec_intDec,
        hconv, hrest]
    · simp only [hb, Bool.false_eq_true, if_false] at hrest ⊢
      simp only [toTypedElems, toTypedElem, hb, Bool.false_eq_true, if_false,
        hconv, hrest]

theorem revive_obj2 (tag : String) (payload : Json) (pv : Value)
    (h : revive payload = .ok pv) :
    revive (.obj [("__type", .str tag), ("value", payload)])
      = reviveNode [("__type", .str tag), ("value", pv)] := by
  simp only [revive, reviveFields]
  rw [h]

theorem revive_obj3 (payload : Json) (pv : Value) (sub : String)
    (h : revive payload = .ok pv) :
    revive (.obj [("__type", .str "typedArray"), ("value", payload),
        ("subtype", .str sub)])
      = reviveNode [("__type", .str "typedArray"), ("value", pv),
        ("subtype", .str sub)] := by
  simp only [revive, reviveFields]
  rw [h]

theorem revive_encode_roundtrip (v : Value)
    (hcf : collisionFree v = true) (hty : typedOk v = true) :
    revive (encode v) = .ok v := by
  induction v using Value.inductionOn with
  | hstr s => rfl
  | hnum n => rfl
  | hbool b => rfl
  | hnull => rfl
  | hobj fields ih =>
    rw [collisionFree] at hcf
    simp only [Bool.and_eq_true, Bool.not_eq_true'] at hcf
    rw [typedOk] at hty
    have hfs : reviveFields (encodeFields fields) = .ok fields :=
      reviveFields_encodeFields fields (fun p hp =>
        ih p hp ((collisionFreeFields_iff fields).mp hcf.2 p hp)
          ((typedOkFields_iff fields).mp hty p hp))
    simp only [encode, revive]
    rw [hfs]
    simp [reviveNode, hcf.1]
  | harr elems ih =>
    rw [collisionFree] at hcf
    rw [typedOk] at hty
    have hl : reviveList (encodeElems elems) = .ok elems :=
      reviveList_encodeElems elems (fun w hw =>
        ih w hw ((collisionFreeList_iff elems).mp hcf w hw)
          ((typedOkList_iff elems).mp hty w hw))
    simp only [encode, revive]
    rw [hl]
  | hbig n =>
    have h1 : revive (.str (String.mk (intDec n))) = .ok (.str (String.mk (intDec n))) := rfl
    rw [encode, revive_obj2 "bigint" _ _ h1]
    show reviveBigInt (some (.str (String.mk (intDec n)))) = .ok (.bigI n)
    rw [reviveBigInt]
    have hdata : (String.mk (intDec n)).data = intDec n := rfl
    rw [hdata, parseIntDec_intDec]
  | hmap pairs ih =>
    rw [collisionFree] at hcf
    rw [typedOk] at hty
    have hp : reviveList (encodePairs pairs)
        = .ok (pairs.map (fun p => Value.arr [p.1, p.2])) :=
      reviveList_encodePairs pairs (fun p hp => by
        have hc := (collisionFreePairs_iff pairs).mp hcf p hp
        have ht := (typedOkPairs_iff pairs).mp hty p hp
        exact ⟨(ih p hp).1 hc.1 ht.1, (ih p hp).2 hc.2 ht.2⟩)
    have hpayload : revive (.arr (encodePairs pairs))
        = .ok (.arr (pairs.map (fun p => Value.arr [p.1, p.2]))) := by
      simp only [revive]
      rw [hp]
    rw [encode, revive_obj2 "map" _ _ hpayload]
    show reviveMap (some (.arr (pairs.map (fun p => Value.arr [p.1, p.2]))))
      = .ok (.mapV pairs)
    rw [reviveMap]
    rw [toMapPairs_entries]
  | hset elems ih =>
    rw [collisionFree] at hcf
    rw [typedOk] at hty
    have hl : reviveList (encodeElems elems) = .ok elems :=
      reviveList_encodeElems elems (fun w hw =>
        ih w hw ((collisionFreeList_iff elems).mp hcf w hw)
          ((typedOkList_iff elems).mp hty w hw))
    have hpayload : revive (.arr (encodeElems elems)) = .ok (.arr elems) := by
      simp only [revive]
      rw [hl]
    rw [encode, revive_obj2 "set" _ _ hpayload]
    rfl
  | htyped k elems =>
    rw [typedOk] at hty
    have hpayload : revive (.arr (elems.map (encTypedElem k)))
        = .ok (.arr (elems.map (fun e =>
            if k.isBig then Value.str (String.mk (intDec e)) else Value.num e))) := by
      simp only [revive]
      rw [reviveList_typedElems]
    rw [encode, revive_obj3 _ _ _ hpayload]
    show reviveTypedArray (some (.str k.ctorName))
        (some (.arr (elems.map (fun e =>
          if k.isBig then Value.str (String.mk (intDec e)) else Value.num e))))
      = .ok (.typed k elems)
    simp only [reviveTypedArray, ctorOfName_ctorName, toTypedElems_decoded k elems hty]

theorem strExt {s t : String} (h : s.data = t.data) : s = t := by
  cases s
  cases t
  exact congrArg String.mk h

theorem strMkData (s : String) : String.mk s.data = s := by
  cases s
  rfl

theorem data_ne_nil {s : String} (h : s ≠ "") : s.data ≠ [] := by
  cases s with
  | mk d =>
    intro hd
    exact h (congrArg String.mk hd)

theorem hasPfx_append (p rest : List Char) : hasPfx p (p ++ rest) = true := by
  induction p with
  | nil => rfl
  | cons c p ih => simp [hasPfx, ih]

theorem hasPfx_eq_append : ∀ {p l : List Char}, hasPfx p l = true →
    p ++ l.drop p.length = l := by
  intro p
  induction p with
  | nil => intro l _; simp
  | cons c p ih =>
    intro l h
    cases l with
    | nil => simp [hasPfx] at h
    | cons d l =>
      simp only [hasPfx, Bool.and_eq_true, beq_iff_eq] at h
      simp only [List.length_cons, List.drop_succ_cons, List.cons_append, h.1]
      rw [ih h.2]

theorem splitColon_append (ns name : List Char)
    (h : ns.all (fun c => !(c == ':')) = true) :
    splitColon (ns ++ ':' :: name) = some (ns, name) := by
  induction ns with
  | nil => simp [splitColon]
  | cons c ns ih =>
    simp only [List.all_cons, Bool.and_eq_true] at h
    have hc : (c == ':') = false := by
      cases hcc : c == ':'
      · rfl
      · rw [hcc] at h; simp at h
    simp only [List.cons_append, splitColon, hc, Bool.false_eq_true, if_false,
      List.append_eq]
    rw [ih h.2]

theorem splitColon_recombine : ∀ {l a b : List Char}, splitColon l = some (a, b) →
    a ++ ':' :: b = l ∧ a.all (fun c => !(c == ':')) = true := by
  intro l
  induction l with
  | nil => intro a b h; simp [splitColon] at h
  | cons c rest ih =>
    intro a b h
    simp only [splitColon] at h
    by_cases hc : (c == ':') = true
    · rw [if_pos hc] at h
      simp only [Option.some_inj, Prod.mk.injEq] at h
      rw [← h.1, ← h.2]
      exact ⟨by rw [eq_of_beq hc]; simp, rfl⟩
    · rw [if_neg hc] at h
      rcases hs : splitColon rest with _ | p
      · rw [hs] at h; exact absurd h (by simp)
      · obtain ⟨a', b'⟩ := p
        rw [hs] at h
        simp only [Option.some_inj, Prod.mk.injEq] at h
        obtain ⟨hr, hall⟩ := ih hs
        refine ⟨?_, ?_⟩
        · rw [← h.1, ← h.2]
          simp only [List.cons_append]
          rw [hr]
        · rw [← h.1]
          simp only [List.all_cons, Bool.and_eq_true]
          exact ⟨by simp [hc], hall⟩

theorem getFullName_data (ns name : String) :
    (getFullName ns name).data
      = "strict-store/".data ++ (ns.data ++ ':' :: name.data) := by
  show (("strict-store/" ++ ns ++ ":") ++ name).data = _
  rw [String.data_append, String.data_append, String.data_append]
  simp

theorem any_colon_false_all {l : List Char} (h : l.any (fun c => c == ':') = false) :
    l.all (fun c => !(c == ':')) = true := by
  induction l with
  | nil => rfl
  | cons c l ih =>
    simp only [List.any_cons, Bool.or_eq_false_iff] at h
    simp [List.all_cons, h.1, ih h.2]

theorem parseStoreKeyStr_getFullName (ns name : String)
    (hns : strContainsColon ns = false) (hne : ns ≠ "") (hnme : name ≠ "")
    (hlt : name.data.all (fun c => !(isLineTerm c)) = true) :
    parseStoreKeyStr (getFullName ns name) = some (ns, name) := by
  have hall : ns.data.all (fun c => !(c == ':')) = true := any_colon_false_all hns
  have hsplit : splitColon (ns.data ++ ':' :: name.data) = some (ns.data, name.data) :=
    splitColon_append _ _ hall
  have hdrop : ("strict-store/".data ++ (ns.data ++ ':' :: name.data)).drop 13
      = ns.data ++ ':' :: name.data := by
    rw [← show ("strict-store/".data).length = 13 from rfl, List.drop_left]
  have hnsE : ns.data.isEmpty = false := by
    rcases hd : ns.data with _ | ⟨c, l⟩
    · exact absurd hd (data_ne_nil hne)
    · rfl
  have hnmE : name.data.isEmpty = false := by
    rcases hd : name.data with _ | ⟨c, l⟩
    · exact absurd hd (data_ne_nil hnme)
    · rfl
  simp only [parseStoreKeyStr, parseKeyChars, getFullName_data, hasPfx_append,
    if_true, hdrop, hsplit, hnsE, hnmE, hlt, Bool.not_false, Bool.and_self, strMkData]

theorem all_colon_any_false {l : List Char} (h : l.all (fun c => !(c == ':')) = true) :
    l.any (fun c => c == ':') = false := by
  induction l with
  | nil => rfl
  | cons c l ih =>
    simp only [List.all_cons, Bool.and_eq_true, Bool.not_eq_eq_eq_not, Bool.not_true] at h
    simp [List.any_cons, h.1, ih h.2]

theorem parseKeyChars_some {cs ns name : List Char}
    (h : parseKeyChars cs = some (ns, name)) :
    "strict-store/".data ++ (ns ++ ':' :: name) = cs
    ∧ hasPfx "strict-store/".data cs = true
    ∧ ns.all (fun c => !(c == ':')) = true
    ∧ ns ≠ [] ∧ name ≠ []
    ∧ name.all (fun c => !(isLineTerm c)) = true := by
  unfold parseKeyChars at h
  split at h
  · rename_i hp
    split at h
    · rename_i a b hs
      split at h
      · rename_i hcond
        simp only [Option.some_inj, Prod.mk.injEq] at h
        obtain ⟨hr, hall⟩ := splitColon_recombine hs
        have hcs : "strict-store/".data ++ cs.drop 13 = cs := by
          have h13 := hasPfx_eq_append hp
          rwa [show ("strict-store/".data).length = 13 from rfl] at h13
        simp only [Bool.and_eq_true, Bool.not_eq_eq_eq_not, Bool.not_true] at hcond
        obtain ⟨haE, hbE, hblt⟩ := hcond
        refine ⟨?_, hp, ?_, ?_, ?_, ?_⟩
        · rw [← h.1, ← h.2, hr, hcs]
        · rw [← h.1]; exact hall
        · rw [← h.1]; intro hnil; rw [hnil] at haE; exact absurd haE (by simp)
        · rw [← h.2]; intro hnil; rw [hnil] at hbE; exact absurd hbE (by simp)
        · rw [← h.2]; exact hblt
      · exact absurd h (by simp)
    · exact absurd h (by simp)
  · exact absurd h (by simp)

theorem parseStoreKeyStr_spec {raw ns name : String}
    (h : parseStoreKeyStr raw = some (ns, name)) :
    getFullName ns name = raw ∧ strStarts raw "strict-store/" = true
    ∧ strContainsColon ns = false ∧ ns ≠ "" ∧ name ≠ "" := by
  unfold parseStoreKeyStr at h
  rcases hp : parseKeyChars raw.data with _ | p
  · rw [hp] at h; exact absurd h (by simp)
  · obtain ⟨a, b⟩ := p
    rw [hp] at h
    simp only [Option.some_inj, Prod.mk.injEq] at h
    obtain ⟨hcs, hpfx, hall, hane, hbne, _⟩ := parseKeyChars_some hp
    refine ⟨?_, hpfx, ?_, ?_, ?_⟩
    · apply strExt
      rw [getFullName_data, ← h.1, ← h.2]
      exact hcs
    · rw [← h.1]
      exact all_colon_any_false hall
    · rw [← h.1]
      intro hmk
      exact hane (congrArg String.data hmk)
    · rw [← h.2]
      intro hmk
      exact hbne (congrArg String.data hmk)

theorem find?_append {α : Type} (p : α → Bool) (a b : List α) :
    (a ++ b).find? p
      = match a.find? p with
        | some x => some x
        | none => b.find? p := by
  induction a with
  | nil => rfl
  | cons e a ih =>
    cases he : p e
    · rw [List.cons_append, List.find?_cons_of_neg _ (by simp [he]),
        List.find?_cons_of_neg _ (by simp [he]), ih]
    · rw [List.cons_append, List.find?_cons_of_pos _ he, List.find?_cons_of_pos _ he]

theorem find?_map_update (a : Area) (key : String) (w : Wire)
    (h : a.any (fun e => e.1 == key) = true) :
    (a.map (fun e => if e.1 == key then (key, w) else e)).find? (fun e => e.1 == key)
      = some (key, w) := by
  induction a with
  | nil => simp at h
  | cons e a ih =>
    cases he : (e.1 == key)
    · simp only [List.any_cons, he, Bool.false_or] at h
      simp only [List.map_cons, he, Bool.false_eq_true, if_false]
      rw [List.find?_cons_of_neg _ (by simp [he]), ih h]
    · simp only [List.map_cons, he, if_true]
      rw [List.find?_cons_of_pos _ (by simp)]

theorem find?_map_update_ne (a : Area) (key k2 : String) (w : Wire) (hne : ¬ k2 = key) :
    (a.map (fun e => if e.1 == key then (key, w) else e)).find? (fun e => e.1 == k2)
      = a.find? (fun e => e.1 == k2) := by
  induction a with
  | nil => rfl
  | cons e a ih =>
    cases he : (e.1 == key)
    · simp only [List.map_cons, he, Bool.false_eq_true, if_false]
      rw [List.find?_cons, List.find?_cons]
      cases he2 : (e.1 == k2)
      · simp only [he2, cond_false]
        exact ih
      · simp only [he2, cond_true]
    · have hkey2 : (key == k2) = false := by
        cases hk : (key == k2)
        · rfl
        · exact absurd (eq_of_beq hk).symm hne
      simp only [List.map_cons, he, if_true]
      have he2 : (e.1 == k2) = false := by
        cases hk : (e.1 == k2)
        · rfl
        · rw [eq_of_beq he] at hk
          exact absurd (eq_of_beq hk).symm hne
      rw [List.find?_cons, List.find?_cons]
      simp only [hkey2, he2, cond_false]
      exact ih

theorem getItem_setItem_self (a : Area) (key : String) (w : Wire) :
    getItem (setItem a key w) key = some w := by
  unfold setItem
  by_cases hAny : a.any (fun e => e.1 == key) = true
  · rw [if_pos hAny]
    unfold getItem
    rw [find?_map_update a key w hAny]
  · rw [if_neg hAny]
    unfold getItem
    rw [find?_append]
    have hnone : a.find? (fun e => e.1 == key) = none := by
      rw [List.find?_eq_none]
      intro e he hp
      exact hAny (List.any_eq_true.mpr ⟨e, he, hp⟩)
    rw [hnone]
    rw [List.find?_cons_of_pos _ (by simp)]

theorem getItem_setItem_ne (a : Area) (key k2 : String) (w : Wire) (hne : ¬ k2 = key) :
    getItem (setItem a key w) k2 = getItem a k2 := by
  unfold setItem
  by_cases hAny : a.any (fun e => e.1 == key) = true
  · rw [if_pos hAny]
    unfold getItem
    rw [find?_map_update_ne a key k2 w hne]
  · rw [if_neg hAny]
    unfold getItem
    rw [find?_append]
    have hlast : ([(key, w)] : Area).find? (fun e => e.1 == k2) = none := by
      have : (key == k2) = false := by
        cases hk : (key == k2)
        · rfl
        · exact absurd (eq_of_beq hk).symm hne
      rw [List.find?_cons_of_neg _ (by simp [this])]
      rfl
    rw [hlast]
    rcases hf : a.find? (fun e => e.1 == k2) with _ | e <;> rw [hf]

theorem getItem_removeItem_self (a : Area) (key : String) :
    getItem (removeItem a key) key = none := by
  unfold getItem removeItem
  have hnone : (a.filter (fun e => !(e.1 == key))).find? (fun e => e.1 == key) = none := by
    rw [List.find?_eq_none]
    intro e he hp
    have hm := (List.mem_filter.mp he).2
    rw [hp] at hm
    exact absurd hm (by simp)
  rw [hnone]

theorem getItem_removeItem_ne (a : Area) (key k2 : String) (hne : ¬ k2 = key) :
    getItem (removeItem a key) k2 = getItem a k2 := by
  unfold getItem removeItem
  induction a with
  | nil => rfl
  | cons e a ih =>
    cases he : (e.1 == key)
    · rw [List.filter_cons_of_pos (by simp [he])]
      rw [List.find?_cons, List.find?_cons]
      cases he2 : (e.1 == k2)
      · simp only [he2, cond_false]
        exact ih
      · simp [he2]
    · rw [List.filter_cons_of_neg (by simp [he])]
      have he2 : (e.1 == k2) = false := by
        cases hk : (e.1 == k2)
        · rfl
        · rw [eq_of_beq he] at hk
          exact absurd (eq_of_beq hk).symm hne
      rw [List.find?_cons]
      simp only [he2, cond_false]
      exact ih

theorem getStorage_putStorage_self (s : StoreState) (t : StoreType) (a : Area) :
    getStorage (putStorage s t a) t = a := by
  cases t <;> rfl

theorem strictJsonParse_stringify (v : Value)
    (hcf : collisionFree v = true) (hty : typedOk v = true) :
    strictJsonParse (stringifyWire v) = v := by
  have hdef : strictJsonParse (stringifyWire v)
      = match revive (encode v) with
        | .ok x => x
        | .error _ => .str (printJson (encode v)) := rfl
  rw [hdef, revive_encode_roundtrip v hcf hty]

/-- C1 (amended): the codec round-trips every value of the taxonomy whose
plain-object nodes never carry both a '__type' and a 'value' field — decoding
the encoding of such a value yields exactly the value, with every extended
kind (big integer, map, set, each fixed-width numeric array variant)
reconstructed as its own runtime type, big integers and 64-bit array elements
exactly. -/
theorem claim_C1_codec_roundtrip (v : Value)
    (hcf : collisionFree v = true) (hty : typedOk v = true) :
    revive (encode v) = .ok v :=
  revive_encode_roundtrip v hcf hty

theorem claim_C1_witness :
    collisionFree (Value.obj
      [("m", .mapV [(.str "k", .setV [.bigI 99999999999999999999])]),
       ("t", .typed .bi64 [3, -4]),
       ("a", .arr [.num 1, .boolV true, .nullV, .str "x"]),
       ("f", .typed .i8 [-128, 127]),
       ("nested", .obj [("deep", .mapV [(.mapV [], .typed .f64 [7])])])]) = true
    ∧ typedOk (Value.obj
      [("m", .mapV [(.str "k", .setV [.bigI 99999999999999999999])]),
       ("t", .typed .bi64 [3, -4]),
       ("a", .arr [.num 1, .boolV true, .nullV, .str "x"]),
       ("f", .typed .i8 [-128, 127]),
       ("nested", .obj [("deep", .mapV [(.mapV [], .typed .f64 [7])])])]) = true
    ∧ revive (encode (Value.obj
      [("m", .mapV [(.str "k", .setV [.bigI 99999999999999999999])]),
       ("t", .typed .bi64 [3, -4]),
       ("a", .arr [.num 1, .boolV true, .nullV, .str "x"]),
       ("f", .typed .i8 [-128, 127]),
       ("nested", .obj [("deep", .mapV [(.mapV [], .typed .f64 [7])])])]))
      = .ok (Value.obj
      [("m", .mapV [(.str "k", .setV [.bigI 99999999999999999999])]),
       ("t", .typed .bi64 [3, -4]),
       ("a", .arr [.num 1, .boolV true, .nullV, .str "x"]),
       ("f", .typed .i8 [-128, 127]),
       ("nested", .obj [("deep", .mapV [(.mapV [], .typed .f64 [7])])])]) :=
  ⟨by decide, by decide, claim_C1_codec_roundtrip _ (by decide) (by decide)⟩

theorem claim_C1_counterexample :
    revive (encode (.obj [("__type", .str "bigint"), ("value", .str "1")]))
      = .ok (.bigI 1)
    ∧ Value.bigI 1 ≠ Value.obj [("__type", .str "bigint"), ("value", .str "1")] :=
  ⟨rfl, fun h => Value.noConfusion h⟩

/-- C2: the reviver does throw a hard error on an unknown tag and on an
unknown typed-array subtype, but strictJson.parse wraps JSON.parse in a
try/catch whose catch returns the raw string — the thrown error is swallowed
and the caller of parse/get receives the raw wire string as a fallback value
instead of an error. -/
theorem claim_C2_decode_error_swallowed :
    revive (.obj [("__type", .str "nope"), ("value", .num 1)])
      = .error "Unknown __type: nope"
    ∧ revive (.obj [("__type", .str "typedArray"), ("value", .arr [.num 1]),
        ("subtype", .str "FooArray")])
      = .error "Unsupported TypedArray type: FooArray"
    ∧ strictJsonParse ⟨"RAW", some (.obj [("__type", .str "nope"), ("value", .num 1)])⟩
      = .str "RAW"
    ∧ StrictStore.get
        ⟨[("strict-store/app:bad",
           ⟨"RAW", some (.obj [("__type", .str "nope"), ("value", .num 1)])⟩)], []⟩
        ⟨"app", "bad", .lcl⟩
      = .str "RAW" :=
  ⟨rfl, rfl, rfl, rfl⟩

/-- C8: a stored string that fails to parse as JSON at all is returned
verbatim as the value by strictJson.parse and by get — it is not an error and
not dropped. -/
theorem claim_C8_raw_fallback (s : StoreState) (k : SKey) (w : Wire)
    (hw : getItem (getStorage s k.storeType) (getFullName k.ns k.name) = some w)
    (hp : w.parsed = none) :
    strictJsonParse w = .str w.raw ∧ StrictStore.get s k = .str w.raw := by
  have h1 : strictJsonParse w = .str w.raw := by
    unfold strictJsonParse
    rw [hp]
  refine ⟨h1, ?_⟩
  unfold StrictStore.get
  rw [hw]
  exact h1

theorem claim_C8_witness :
    getItem (getStorage (⟨[("strict-store/a:b", ⟨"dark", none⟩)], []⟩ : StoreState)
        StoreType.lcl) (getFullName "a" "b") = some ⟨"dark", none⟩
    ∧ strictJsonParse ⟨"dark", none⟩ = .str "dark"
    ∧ StrictStore.get ⟨[("strict-store/a:b", ⟨"dark", none⟩)], []⟩ ⟨"a", "b", .lcl⟩
        = .str "dark" :=
  ⟨rfl, (claim_C8_raw_fallback ⟨[("strict-store/a:b", ⟨"dark", none⟩)], []⟩
      ⟨"a", "b", .lcl⟩ ⟨"dark", none⟩ rfl rfl).1,
    (claim_C8_raw_fallback ⟨[("strict-store/a:b", ⟨"dark", none⟩)], []⟩
      ⟨"a", "b", .lcl⟩ ⟨"dark", none⟩ rfl rfl).2⟩

/-- C9: createKey throws synchronously whenever namespace or name is empty or
contains the ':' delimiter, so no key is produced; for valid inputs it
returns a key carrying exactly that namespace, name and area, the area
defaulting to 'local' when omitted. -/
theorem claim_C9_createKey (ns name : String) (st : StoreType) :
    ((ns = "" ∨ name = "" ∨ strContainsColon ns = true ∨ strContainsColon name = true) →
      (createKey ns name st).isOk = false)
    ∧ (ns ≠ "" → name ≠ "" → strContainsColon ns = false → strContainsColon name = false →
        createKey ns name st = .ok ⟨ns, name, st⟩
        ∧ createKeyDefault ns name = .ok ⟨ns, name, .lcl⟩) := by
  constructor
  · intro h
    unfold createKey
    by_cases h1 : strContainsColon ns = true ∨ strContainsColon name = true
    · rw [if_pos h1]; rfl
    · rw [if_neg h1]
      push_neg at h1
      have h2 : ns.length = 0 ∨ name.length = 0 := by
        rcases h with h | h | h | h
        · left; rw [h]; rfl
        · right; rw [h]; rfl
        · exact absurd h h1.1
        · exact absurd h h1.2
      rw [if_pos h2]
      rfl
  · intro hne hnme hc1 hc2
    have hcond1 : ¬(strContainsColon ns = true ∨ strContainsColon name = true) := by
      rw [hc1, hc2]; simp
    have hcond2 : ¬(ns.length = 0 ∨ name.length = 0) := by
      rintro (h0 | h0)
      · exact data_ne_nil hne (List.length_eq_zero.mp h0)
      · exact data_ne_nil hnme (List.length_eq_zero.mp h0)
    constructor
    · unfold createKey
      rw [if_neg hcond1, if_neg hcond2]
    · unfold createKeyDefault createKey
      rw [if_neg hcond1, if_neg hcond2]

theorem claim_C9_witness :
    (createKey "" "x" StoreType.lcl).isOk = false
    ∧ (createKey "a:b" "x" StoreType.lcl).isOk = false
    ∧ createKey "app" "theme" StoreType.ses = .ok ⟨"app", "theme", .ses⟩
    ∧ createKeyDefault "app" "theme" = .ok ⟨"app", "theme", .lcl⟩ :=
  ⟨(claim_C9_createKey "" "x" .lcl).1 (Or.inl rfl),
   (claim_C9_createKey "a:b" "x" .lcl).1 (Or.inr (Or.inr (Or.inl (by decide)))),
   ((claim_C9_createKey "app" "theme" .ses).2 (by decide) (by decide)
      (by decide) (by decide)).1,
   ((claim_C9_createKey "app" "theme" .lcl).2 (by decide) (by decide)
      (by decide) (by decide)).2⟩

/-- C10: after save(key, null), has(key) is true while get(key) returns the
null value — exactly the get result of a key that was never saved, for which
has(key) is false; so get alone cannot distinguish a stored null from
absence. -/
theorem claim_C10_null_vs_absent (s : StoreState) (k : SKey) :
    StrictStore.get (StrictStore.save s k .nullV) k = .nullV
    ∧ StrictStore.has (StrictStore.save s k .nullV) k = true
    ∧ (getItem (getStorage s k.storeType) (getFullName k.ns k.name) = none →
        StrictStore.get s k = .nullV ∧ StrictStore.has s k = false) := by
  have hset : getItem (getStorage (StrictStore.save s k .nullV) k.storeType)
      (getFullName k.ns k.name) = some (stringifyWire .nullV) := by
    unfold StrictStore.save
    rw [getStorage_putStorage_self, getItem_setItem_self]
  refine ⟨?_, ?_, ?_⟩
  · unfold StrictStore.get
    rw [hset]
    rfl
  · unfold StrictStore.has
    rw [hset]
    rfl
  · intro habs
    constructor
    · unfold StrictStore.get
      rw [habs]
    · unfold StrictStore.has
      rw [habs]
      rfl

theorem claim_C10_witness :
    StrictStore.get (StrictStore.save ⟨[], []⟩ ⟨"app", "theme", .lcl⟩ .nullV)
        ⟨"app", "theme", .lcl⟩ = .nullV
    ∧ StrictStore.has (StrictStore.save ⟨[], []⟩ ⟨"app", "theme", .lcl⟩ .nullV)
        ⟨"app", "theme", .lcl⟩ = true
    ∧ (StrictStore.get ⟨[], []⟩ ⟨"app", "theme", .lcl⟩ = .nullV
        ∧ StrictStore.has ⟨[], []⟩ ⟨"app", "theme", .lcl⟩ = false) :=
  ⟨(claim_C10_null_vs_absent ⟨[], []⟩ ⟨"app", "theme", .lcl⟩).1,
   (claim_C10_null_vs_absent ⟨[], []⟩ ⟨"app", "theme", .lcl⟩).2.1,
   (claim_C10_null_vs_absent ⟨[], []⟩ ⟨"app", "theme", .lcl⟩).2.2 rfl⟩

/-- C3 (amended): merge on an absent key fails with the distinct
'cannot initialize' error, and merge on a stored number, string, boolean, big
integer or array fails with the distinct 'not a plain object' error — in both
cases the error is raised before any write, so the state is unchanged.  The
guard is typeof-based, however, so a stored Map or Set instance is NOT
rejected (typeof gives 'object' for them): see the counterexample. -/
theorem claim_C3_merge_preconditions (s : StoreState) (k : SKey) (patch v : Value) :
    (getItem (getStorage s k.storeType) (getFullName k.ns k.name) = none →
      StrictStore.merge s k patch = .error mergeMsgInit)
    ∧ (isPrimitiveV v = true ∨ isArrayV v = true → collisionFree v = true →
        typedOk v = true →
        StrictStore.merge (StrictStore.save s k v) k patch = .error mergeMsgPlain)
    ∧ mergeMsgInit ≠ mergeMsgPlain := by
  refine ⟨?_, ?_, ?_⟩
  · intro habs
    unfold StrictStore.merge
    rw [habs]
  · intro hcls hcf hty
    have hset : getItem (getStorage (StrictStore.save s k v) k.storeType)
        (getFullName k.ns k.name) = some (stringifyWire v) := by
      unfold StrictStore.save
      rw [getStorage_putStorage_self, getItem_setItem_self]
    have hred : StrictStore.merge (StrictStore.save s k v) k patch
        = (if isNullV (strictJsonParse (stringifyWire v)) then Except.error mergeMsgInit
           else if !(jsTypeofObject (strictJsonParse (stringifyWire v)))
               || isArrayV (strictJsonParse (stringifyWire v)) then
             Except.error mergeMsgPlain
           else .ok (putStorage (StrictStore.save s k v) k.storeType
              (setItem (getStorage (StrictStore.save s k v) k.storeType)
                (getFullName k.ns k.name)
                (stringifyWire (deepMergeWithCollections
                  (strictJsonParse (stringifyWire v)) patch))))) := by
      unfold StrictStore.merge
      rw [hset]
    rw [hred, strictJsonParse_stringify v hcf hty]
    cases v <;> simp [isPrimitiveV, isArrayV] at hcls <;> rfl
  · intro h
    exact absurd (congrArg String.data h) (by decide)

theorem claim_C3_witness :
    StrictStore.merge (⟨[], []⟩ : StoreState) ⟨"app", "user", .lcl⟩ (.obj [])
      = .error mergeMsgInit
    ∧ StrictStore.merge (StrictStore.save ⟨[], []⟩ ⟨"app", "user", .lcl⟩ (.num 5))
        ⟨"app", "user", .lcl⟩ (.obj []) = .error mergeMsgPlain
    ∧ mergeMsgInit ≠ mergeMsgPlain :=
  ⟨(claim_C3_merge_preconditions ⟨[], []⟩ ⟨"app", "user", .lcl⟩ (.obj []) (.num 5)).1 rfl,
   (claim_C3_merge_preconditions ⟨[], []⟩ ⟨"app", "user", .lcl⟩ (.obj [])
      (.num 5)).2.1 (Or.inl rfl) rfl rfl,
   (claim_C3_merge_preconditions ⟨[], []⟩ ⟨"app", "user", .lcl⟩ (.obj []) (.num 5)).2.2⟩

theorem claim_C3_counterexample :
    StrictStore.get (StrictStore.save ⟨[], []⟩ ⟨"app", "user", .lcl⟩
        (.mapV [(.str "a", .num 1)])) ⟨"app", "user", .lcl⟩
      = .mapV [(.str "a", .num 1)]
    ∧ (StrictStore.merge (StrictStore.save ⟨[], []⟩ ⟨"app", "user", .lcl⟩
        (.mapV [(.str "a", .num 1)])) ⟨"app", "user", .lcl⟩
        (.obj [("x", .num 2)])).isOk = true :=
  ⟨rfl, rfl⟩

/-- C6 (amended): for a validated namespace and name, the wire key is exactly
'strict-store/' + ns + ':' + name, the derivation is injective, and entries
saved or removed under one namespace never touch the same name under another
namespace.  Parsing the wire key recovers {ns, name} exactly whenever the
name contains no line terminator; KEY_PATTERN's (.+) group cannot match a
line terminator, so such names fail to round-trip (see the counterexample). -/
theorem claim_C6_wire_keys (ns name ns2 name2 : String)
    (hns : strContainsColon ns = false) (hne : ns ≠ "")
    (hnm : strContainsColon name = false) (hnme : name ≠ "") :
    getFullName ns name = "strict-store/" ++ ns ++ ":" ++ name
    ∧ (name.data.all (fun c => !(isLineTerm c)) = true →
        parseStoreKeyStr (getFullName ns name) = some (ns, name))
    ∧ (strContainsColon ns2 = false → getFullName ns name = getFullName ns2 name2 →
        ns = ns2 ∧ name = name2)
    ∧ (∀ (s : StoreState) (v : Value) (st : StoreType),
        strContainsColon ns2 = false → ns ≠ ns2 →
        StrictStore.get (StrictStore.save s ⟨ns2, name, st⟩ v) ⟨ns, name, st⟩
          = StrictStore.get s ⟨ns, name, st⟩
        ∧ StrictStore.has (StrictStore.remove s [⟨ns2, name, st⟩]) ⟨ns, name, st⟩
          = StrictStore.has s ⟨ns, name, st⟩) := by
  have hinj : ∀ (nsB nameB : String), strContainsColon nsB = false →
      getFullName ns name = getFullName nsB nameB → ns = nsB ∧ name = nameB := by
    intro nsB nameB hnsB heq
    have hd := congrArg String.data heq
    rw [getFullName_data, getFullName_data] at hd
    have hd2 : ns.data ++ ':' :: name.data = nsB.data ++ ':' :: nameB.data :=
      List.append_cancel_left hd
    have h1 : splitColon (ns.data ++ ':' :: name.data) = some (ns.data, name.data) :=
      splitColon_append _ _ (any_colon_false_all hns)
    have h2 : splitColon (nsB.data ++ ':' :: nameB.data) = some (nsB.data, nameB.data) :=
      splitColon_append _ _ (any_colon_false_all hnsB)
    rw [hd2, h2] at h1
    simp only [Option.some_inj, Prod.mk.injEq] at h1
    exact ⟨(strExt h1.1).symm, (strExt h1.2).symm⟩
  refine ⟨rfl, ?_, ?_, ?_⟩
  · intro hlt
    exact parseStoreKeyStr_getFullName ns name hns hne hnme hlt
  · intro hns2 heq
    exact hinj ns2 name2 hns2 heq
  · intro s v st hns2 hnn
    have hkey : ¬ getFullName ns name = getFullName ns2 name := by
      intro heq
      exact hnn (hinj ns2 name hns2 heq).1
    constructor
    · unfold StrictStore.get StrictStore.save
      rw [getStorage_putStorage_self, getItem_setItem_ne _ _ _ _ hkey]
    · unfold StrictStore.has StrictStore.remove
      simp only [List.foldl_cons, List.foldl_nil]
      rw [getStorage_putStorage_self, getItem_removeItem_ne _ _ _ hkey]

theorem claim_C6_witness :
    getFullName "ns1" "k" = "strict-store/" ++ "ns1" ++ ":" ++ "k"
    ∧ parseStoreKeyStr (getFullName "ns1" "k") = some ("ns1", "k")
    ∧ (getFullName "ns1" "k" = getFullName "ns2" "k2" → "ns1" = "ns2" ∧ "k" = "k2")
    ∧ (StrictStore.get (StrictStore.save ⟨[], []⟩ ⟨"ns2", "k", .lcl⟩ (.num 7))
          ⟨"ns1", "k", .lcl⟩
        = StrictStore.get ⟨[], []⟩ ⟨"ns1", "k", .lcl⟩
      ∧ StrictStore.has (StrictStore.remove ⟨[], []⟩ [⟨"ns2", "k", .lcl⟩])
          ⟨"ns1", "k", .lcl⟩
        = StrictStore.has ⟨[], []⟩ ⟨"ns1", "k", .lcl⟩) :=
  ⟨(claim_C6_wire_keys "ns1" "k" "ns2" "k2" rfl (by decide) rfl (by decide)).1,
   (claim_C6_wire_keys "ns1" "k" "ns2" "k2" rfl (by decide) rfl (by decide)).2.1 rfl,
   fun heq => (claim_C6_wire_keys "ns1" "k" "ns2" "k2" rfl (by decide) rfl
      (by decide)).2.2.1 rfl heq,
   (claim_C6_wire_keys "ns1" "k" "ns2" "k" rfl (by decide) rfl
      (by decide)).2.2.2 ⟨[], []⟩ (.num 7) .lcl rfl (by decide)⟩

theorem claim_C6_counterexample :
    (createKey "a" (String.mk ['b', Char.ofNat 10, 'c']) .lcl).isOk = true
    ∧ parseStoreKeyStr (getFullName "a" (String.mk ['b', Char.ofNat 10, 'c'])) = none :=
  ⟨rfl, rfl⟩

theorem hasKey_eq_lookup {α : Type} (fs : List (String × α)) (key : String) :
    hasKey fs key = (lookupField fs key).isSome := by
  induction fs with
  | nil => rfl
  | cons p fs ih =>
    obtain ⟨k, v⟩ := p
    simp only [hasKey, List.any_cons, lookupField]
    cases hk : (k == key)
    · simp only [hk, Bool.false_or, if_false, Bool.false_eq_true]
      rw [← ih]
      rfl
    · simp [hk]

theorem lookup_mergedTargetFields (cust : Value → Value → Option Value)
    (tf sf : List (String × Value)) (key : String) :
    lookupField (mergedTargetFields cust tf sf) key
      = match lookupField tf key with
        | some tv =>
          some (match lookupField sf key with
                | some sv => lodashMergeWith cust tv sv
                | none => tv)
        | none => none := by
  induction tf with
  | nil => rfl
  | cons p tf ih =>
    obtain ⟨k0, tv0⟩ := p
    cases hk : (k0 == key)
    · rcases hs : lookupField sf k0 with _ | sv <;>
        simp only [mergedTargetFields, hs, lookupField, hk, Bool.false_eq_true,
          if_false] <;>
        exact ih
    · have hkey : k0 = key := eq_of_beq hk
      subst hkey
      rcases hs : lookupField sf k0 with _ | sv <;>
        simp only [mergedTargetFields, hs, lookupField, hk, if_true]

theorem lookup_append_fields (xs ys : List (String × Value)) (key : String) :
    lookupField (xs ++ ys) key
      = match lookupField xs key with
        | some v => some v
        | none => lookupField ys key := by
  induction xs with
  | nil => rfl
  | cons p xs ih =>
    obtain ⟨k0, v0⟩ := p
    simp only [List.cons_append, lookupField]
    cases hk : (k0 == key)
    · simp only [hk, Bool.false_eq_true, if_false]
      exact ih
    · simp only [hk, if_true]

theorem lookup_filter_not_hasKey (tf sf : List (String × Value)) (key : String)
    (h : hasKey tf key = false) :
    lookupField (sf.filter (fun p => !(hasKey tf p.1))) key = lookupField sf key := by
  induction sf with
  | nil => rfl
  | cons p sf ih =>
    obtain ⟨k1, v1⟩ := p
    cases hk : (k1 == key)
    · cases hh : hasKey tf k1
      · rw [List.filter_cons_of_pos (by simp [hh])]
        simp only [lookupField, hk, Bool.false_eq_true, if_false]
        exact ih
      · rw [List.filter_cons_of_neg (by simp [hh])]
        rw [ih]
        simp only [lookupField, hk, Bool.false_eq_true, if_false]
    · have hkey : k1 = key := eq_of_beq hk
      subst hkey
      rw [List.filter_cons_of_pos (by simp [h])]
      simp only [lookupField, hk, if_true]

theorem lookup_mergeObjFields (tf sf : List (String × Value)) (key : String) :
    lookupField (mergeObjFields tf sf) key
      = match lookupField tf key, lookupField sf key with
        | some tv, some sv => some (lodashMergeWith collectionsCustomizer tv sv)
        | some tv, none => some tv
        | none, other => other := by
  unfold mergeObjFields
  rw [lookup_append_fields, lookup_mergedTargetFields]
  rcases h1 : lookupField tf key with _ | tv
  · have hh : hasKey tf key = false := by
      rw [hasKey_eq_lookup, h1]
      rfl
    rw [lookup_filter_not_hasKey tf sf key hh]
  · rcases h2 : lookupField sf key with _ | sv <;> rfl

/-- C4 (amended): deepMergeWithCollections on two plain objects combines
them field-by-field — when both sides of a field are plain objects the merge
recurses; when both are arrays, both maps, both sets, or both typed arrays
(in particular the same numeric-array variant) the incoming value wholly
replaces the existing one; a present field whose incoming value is neither
an array, a typed array, nor a plain object (and which the customizer
declines) takes the incoming value; fields absent from the incoming partial
keep their existing value, and fields absent from the stored object take the
incoming value.  The claim's stronger 'any other field simply takes the
incoming value' is false of the code: lodash's baseMergeDeep merges an
incoming plain object INTO an existing collection instead of replacing it —
in particular an existing Map or Set keeps its entries (the incoming fields
land as expando properties the codec never sees), shown here and in the
counterexample. -/
theorem claim_C4_deep_merge (tf sf : List (String × Value)) (key : String) :
    deepMergeWithCollections (.obj tf) (.obj sf) = .obj (mergeObjFields tf sf)
    ∧ (∀ ta sa, lookupField tf key = some (.arr ta) →
        lookupField sf key = some (.arr sa) →
        lookupField (mergeObjFields tf sf) key = some (.arr sa))
    ∧ (∀ tm sm, lookupField tf key = some (.mapV tm) →
        lookupField sf key = some (.mapV sm) →
        lookupField (mergeObjFields tf sf) key = some (.mapV sm))
    ∧ (∀ ts ss, lookupField tf key = some (.setV ts) →
        lookupField sf key = some (.setV ss) →
        lookupField (mergeObjFields tf sf) key = some (.setV ss))
    ∧ (∀ k1 k2 te se, lookupField tf key = some (.typed k1 te) →
        lookupField sf key = some (.typed k2 se) →
        lookupField (mergeObjFields tf sf) key = some (.typed k2 se))
    ∧ (∀ tf2 sf2, lookupField tf key = some (.obj tf2) →
        lookupField sf key = some (.obj sf2) →
        lookupField (mergeObjFields tf sf) key
          = some (deepMergeWithCollections (.obj tf2) (.obj sf2)))
    ∧ (∀ tv sv, lookupField tf key = some tv → lookupField sf key = some sv →
        collectionsCustomizer tv sv = none →
        isObjV sv = false → isArrayV sv = false → isTypedV sv = false →
        lookupField (mergeObjFields tf sf) key = some sv)
    ∧ (∀ pm po, lookupField tf key = some (.mapV pm) →
        lookupField sf key = some (.obj po) →
        lookupField (mergeObjFields tf sf) key = some (.mapV pm))
    ∧ (∀ ls po, lookupField tf key = some (.setV ls) →
        lookupField sf key = some (.obj po) →
        lookupField (mergeObjFields tf sf) key = some (.setV ls))
    ∧ (∀ tv, lookupField tf key = some tv → lookupField sf key = none →
        lookupField (mergeObjFields tf sf) key = some tv)
    ∧ (lookupField tf key = none →
        lookupField (mergeObjFields tf sf) key = lookupField sf key) := by
  refine ⟨rfl, ?_, ?_, ?_, ?_, ?_, ?_, ?_, ?_, ?_, ?_⟩
  · intro ta sa h1 h2
    rw [lookup_mergeObjFields, h1, h2]
    rfl
  · intro tm sm h1 h2
    rw [lookup_mergeObjFields, h1, h2]
    rfl
  · intro ts ss h1 h2
    rw [lookup_mergeObjFields, h1, h2]
    rfl
  · intro k1 k2 te se h1 h2
    rw [lookup_mergeObjFields, h1, h2]
    rfl
  · intro tf2 sf2 h1 h2
    rw [lookup_mergeObjFields, h1, h2]
    rfl
  · intro tv sv h1 h2 hcust hobj harr htyp
    rw [lookup_mergeObjFields, h1, h2]
    show some (lodashMergeWith collectionsCustomizer tv sv) = some sv
    have hrepl : lodashMergeWith collectionsCustomizer tv sv = sv := by
      cases tv <;> cases sv <;>
        first
        | rfl
        | simp_all [collectionsCustomizer, isObjV, isArrayV, isTypedV]
    rw [hrepl]
  · intro pm po h1 h2
    rw [lookup_mergeObjFields, h1, h2]
    rfl
  · intro ls po h1 h2
    rw [lookup_mergeObjFields, h1, h2]
    rfl
  · intro tv h1 h2
    rw [lookup_mergeObjFields, h1, h2]
  · intro h1
    rw [lookup_mergeObjFields, h1]

theorem claim_C4_witness :
    deepMergeWithCollections
        (.obj [("name", .str "Dina"), ("tags", .arr [.str "a", .str "b"]),
          ("permissions", .setV [.str "read"])])
        (.obj [("tags", .arr [.str "c"]), ("permissions", .setV [.str "write"])])
      = .obj (mergeObjFields
          [("name", .str "Dina"), ("tags", .arr [.str "a", .str "b"]),
            ("permissions", .setV [.str "read"])]
          [("tags", .arr [.str "c"]), ("permissions", .setV [.str "write"])])
    ∧ lookupField (mergeObjFields
          [("name", .str "Dina"), ("tags", .arr [.str "a", .str "b"]),
            ("permissions", .setV [.str "read"])]
          [("tags", .arr [.str "c"]), ("permissions", .setV [.str "write"])]) "tags"
        = some (.arr [.str "c"])
    ∧ lookupField (mergeObjFields
          [("name", .str "Dina"), ("tags", .arr [.str "a", .str "b"]),
            ("permissions", .setV [.str "read"])]
          [("tags", .arr [.str "c"]), ("permissions", .setV [.str "write"])])
        "permissions"
        = some (.setV [.str "write"])
    ∧ lookupField (mergeObjFields
          [("name", .str "Dina"), ("tags", .arr [.str "a", .str "b"]),
            ("permissions", .setV [.str "read"])]
          [("tags", .arr [.str "c"]), ("permissions", .setV [.str "write"])]) "name"
        = some (.str "Dina") :=
  ⟨(claim_C4_deep_merge _ _ "tags").1,
   (claim_C4_deep_merge _ _ "tags").2.1 [.str "a", .str "b"] [.str "c"] rfl rfl,
   (claim_C4_deep_merge _ _ "permissions").2.2.2.1 [.str "read"] [.str "write"] rfl rfl,
   (claim_C4_deep_merge _ _ "name").2.2.2.2.2.2.2.2.2.1 (.str "Dina") rfl rfl⟩

/-- The claim's 'any other field simply takes the incoming value' fails on
the code: a plain-object patch arriving on a stored Map field merges into
the Map, whose entries survive, instead of replacing it; and arriving on a
stored array field it merges by index — lodash turns a:[1,2,3] patched with
a:(1 mapsto b) into [1,b,3] — instead of replacing the array. -/
theorem claim_C4_counterexample :
    deepMergeWithCollections
        (.obj [("m", .mapV [(.str "k", .num 1)])])
        (.obj [("m", .obj [("a", .num 2)])])
      = .obj [("m", .mapV [(.str "k", .num 1)])]
    ∧ Value.mapV [(.str "k", .num 1)] ≠ Value.obj [("a", .num 2)]
    ∧ deepMergeWithCollections
        (.obj [("a", .arr [.num 1, .num 2, .num 3])])
        (.obj [("a", .obj [("1", .str "b")])])
      = .obj [("a", .arr [.num 1, .str "b", .num 3])]
    ∧ Value.arr [.num 1, .str "b", .num 3] ≠ Value.obj [("1", .str "b")] :=
  ⟨rfl, fun h => Value.noConfusion h, rfl, fun h => Value.noConfusion h⟩

theorem handler_none_key (kn nsp : Option (List String)) (e : SEvent)
    (h : e.key = none) : onChangeHandler kn nsp e = none := by
  unfold onChangeHandler
  rw [h]

theorem handler_foreign (kn nsp : Option (List String)) (e : SEvent) (k : String)
    (hk : e.key = some k) (hs : strStarts k "strict-store/" = false) :
    onChangeHandler kn nsp e = none := by
  unfold onChangeHandler
  rw [hk]
  simp [hs]

theorem handler_keyNames_some {kn : List String} {nsp : Option (List String)}
    {e : SEvent} {r : SKey × Value × Value × StoreType}
    (h : onChangeHandler (some kn) nsp e = some r) :
    ∃ k, e.key = some k ∧ kn.contains k = true := by
  unfold onChangeHandler at h
  rcases hk : e.key with _ | k
  · rw [hk] at h; exact absurd h (by simp)
  · rw [hk] at h
    cases hs : strStarts k "strict-store/"
    · simp only [hs, Bool.not_false, if_true] at h
      exact absurd h (by simp)
    · simp only [hs, Bool.not_true, Bool.false_eq_true, if_false] at h
      cases hc : kn.contains k
      · rw [hc] at h
        simp at h
      · exact ⟨k, rfl, hc⟩

theorem handler_nsPrefixes_some {nsp : List String} {e : SEvent}
    {r : SKey × Value × Value × StoreType}
    (h : onChangeHandler none (some nsp) e = some r) :
    ∃ k, e.key = some k ∧ nsp.any (fun p => strStarts k p) = true := by
  unfold onChangeHandler at h
  rcases hk : e.key with _ | k
  · rw [hk] at h; exact absurd h (by simp)
  · rw [hk] at h
    cases hs : strStarts k "strict-store/"
    · simp only [hs, Bool.not_false, if_true] at h
      exact absurd h (by simp)
    · simp only [hs, Bool.not_true, Bool.false_eq_true, if_false] at h
      cases hc : nsp.any (fun p => strStarts k p)
      · rw [hc] at h
        simp at h
      · exact ⟨k, rfl, hc⟩

theorem handler_unfiltered_fires (e : SEvent) (ns name : String)
    (hk : e.key = some (getFullName ns name))
    (hp : parseStoreKeyStr (getFullName ns name) = some (ns, name)) :
    (onChangeHandler none none e).isSome = true := by
  have hstarts : strStarts (getFullName ns name) "strict-store/" = true :=
    (parseStoreKeyStr_spec hp).2.1
  unfold onChangeHandler
  rw [hk]
  simp [hstarts, hp]

/-- C5 (amended): an onChange subscription never fires for an event whose key
is absent or lacks the library prefix; with an empty-array target it never
fires at all; with a StoreKey-array target it fires only for events whose key
equals one of the resolved wire keys, and with a namespace target only for
events whose key starts with one of the resolved prefixes; with the target
omitted it fires for every event whose key is a KEY_PATTERN wire key — but
not for every prefix-carrying key: a library key whose name contains a line
terminator never fires (see the counterexample). -/
theorem claim_C5_onchange_filtering (e : SEvent) :
    (e.key = none → ∀ t, onChangeFires t e = none)
    ∧ (∀ k, e.key = some k → strStarts k "strict-store/" = false →
        ∀ t, onChangeFires t e = none)
    ∧ (∀ ns name, e.key = some (getFullName ns name) →
        parseStoreKeyStr (getFullName ns name) = some (ns, name) →
        (onChangeFires .omitted e).isSome = true)
    ∧ (onChangeFires (.keys []) e = none ∧ onChangeFires (.nss []) e = none)
    ∧ (∀ l r, onChangeFires (.keys l) e = some r →
        ∃ k, e.key = some k
          ∧ (l.map (fun k2 => getFullName k2.ns k2.name)).contains k = true)
    ∧ (∀ l r, onChangeFires (.nss l) e = some r →
        ∃ k, e.key = some k ∧ (l.map nsPfxOf).any (fun p => strStarts k p) = true) := by
  refine ⟨?_, ?_, ?_, ⟨?_, ?_⟩, ?_, ?_⟩
  · intro h t
    exact handler_none_key _ _ e h
  · intro k hk hs t
    exact handler_foreign _ _ e k hk hs
  · intro ns name hk hp
    exact handler_unfiltered_fires e ns name hk hp
  · rcases h : onChangeHandler (some []) (some []) e with _ | r
    · exact h
    · obtain ⟨k, _, hc⟩ := handler_keyNames_some h
      exact absurd hc (by simp)
  · rcases h : onChangeHandler (some []) (some []) e with _ | r
    · exact h
    · obtain ⟨k, _, hc⟩ := handler_keyNames_some h
      exact absurd hc (by simp)
  · intro l r h
    cases l with
    | nil =>
      obtain ⟨k, hk, hc⟩ := handler_keyNames_some h
      exact ⟨k, hk, hc⟩
    | cons k0 l =>
      obtain ⟨k, hk, hc⟩ := handler_keyNames_some h
      exact ⟨k, hk, hc⟩
  · intro l r h
    cases l with
    | nil =>
      obtain ⟨k, hk, hc⟩ := handler_keyNames_some h
      exact absurd hc (by simp)
    | cons n0 l =>
      obtain ⟨k, hk, hc⟩ := handler_nsPrefixes_some h
      exact ⟨k, hk, hc⟩

theorem claim_C5_witness :
    (onChangeFires .omitted
        ⟨some (getFullName "a" "b"), none, none, .lcl⟩).isSome = true
    ∧ onChangeFires (.keys []) ⟨some (getFullName "a" "b"), none, none, .lcl⟩ = none
    ∧ onChangeFires (.nss []) ⟨some (getFullName "a" "b"), none, none, .lcl⟩ = none
    ∧ onChangeFires .omitted ⟨none, none, none, .lcl⟩ = none
    ∧ onChangeFires .omitted ⟨some "foreign-key", none, none, .lcl⟩ = none :=
  ⟨(claim_C5_onchange_filtering ⟨some (getFullName "a" "b"), none, none, .lcl⟩).2.2.1
      "a" "b" rfl rfl,
   (claim_C5_onchange_filtering ⟨some (getFullName "a" "b"), none, none, .lcl⟩).2.2.2.1.1,
   (claim_C5_onchange_filtering ⟨some (getFullName "a" "b"), none, none, .lcl⟩).2.2.2.1.2,
   (claim_C5_onchange_filtering ⟨none, none, none, .lcl⟩).1 rfl .omitted,
   (claim_C5_onchange_filtering ⟨some "foreign-key", none, none, .lcl⟩).2.1
      "foreign-key" rfl rfl .omitted⟩

theorem claim_C5_counterexample :
    (createKey "x" (String.mk ['b', Char.ofNat 10, 'c']) .lcl).isOk = true
    ∧ strStarts (getFullName "x" (String.mk ['b', Char.ofNat 10, 'c']))
        "strict-store/" = true
    ∧ onChangeFires .omitted
        ⟨some (getFullName "x" (String.mk ['b', Char.ofNat 10, 'c'])),
          none, none, .lcl⟩ = none :=
  ⟨rfl, rfl, rfl⟩

theorem entryOf_eq (st : StoreType) (e : String × Wire) :
    StrictStore.entryOf st ["strict-store/"] e
      = match parseStoreKeyStr e.1 with
        | some (ns, name) => some ⟨⟨ns, name, st⟩, strictJsonParse e.2, st⟩
        | none => none := by
  unfold StrictStore.entryOf
  cases hs : strStarts e.1 "strict-store/"
  · have hp : parseStoreKeyStr e.1 = none := by
      rcases hp : parseStoreKeyStr e.1 with _ | p
      · rfl
      · obtain ⟨a, b⟩ := p
        exact absurd (parseStoreKeyStr_spec hp).2.1 (by simp [hs])
    rw [hp]
    simp [hs]
  · simp [hs]

theorem getAll_none (s : StoreState) :
    StrictStore.getAll s none
      = s.lclArea.filterMap (StrictStore.entryOf .lcl ["strict-store/"])
        ++ s.sesArea.filterMap (StrictStore.entryOf .ses ["strict-store/"]) := rfl

theorem mem_filterMap_entryOf {st : StoreType} {pfxs : List String} {a : Area}
    {x : SEntry} (h : x ∈ a.filterMap (StrictStore.entryOf st pfxs)) :
    x.key.storeType = st := by
  obtain ⟨e, _, hx⟩ := List.mem_filterMap.mp h
  unfold StrictStore.entryOf at hx
  split at hx
  · split at hx
    · rename_i ns name hp
      simp only [Option.some_inj] at hx
      rw [← hx]
    · exact absurd hx (by simp)
  · exact absurd hx (by simp)

theorem clearFold_lcl (es : List SEntry) (st : StoreState) :
    (es.foldl (fun acc e => StrictStore.remove acc [e.key]) st).lclArea
      = (es.filter (fun e => e.key.storeType == StoreType.lcl)).foldl
          (fun a e => removeItem a (getFullName e.key.ns e.key.name)) st.lclArea := by
  induction es generalizing st with
  | nil => rfl
  | cons e es ih =>
    simp only [List.foldl_cons]
    rw [ih]
    cases het : e.key.storeType
    · have hone : (StrictStore.remove st [e.key]).lclArea
          = removeItem st.lclArea (getFullName e.key.ns e.key.name) := by
        unfold StrictStore.remove
        simp only [List.foldl_cons, List.foldl_nil]
        rw [het]
        rfl
      rw [List.filter_cons_of_pos (by simp [het])]
      simp only [List.foldl_cons]
      rw [hone]
    · have hone : (StrictStore.remove st [e.key]).lclArea = st.lclArea := by
        unfold StrictStore.remove
        simp only [List.foldl_cons, List.foldl_nil]
        rw [het]
        rfl
      rw [List.filter_cons_of_neg (by simp [het])]
      rw [hone]

theorem clearFold_ses (es : List SEntry) (st : StoreState) :
    (es.foldl (fun acc e => StrictStore.remove acc [e.key]) st).sesArea
      = (es.filter (fun e => e.key.storeType == StoreType.ses)).foldl
          (fun a e => removeItem a (getFullName e.key.ns e.key.name)) st.sesArea := by
  induction es generalizing st with
  | nil => rfl
  | cons e es ih =>
    simp only [List.foldl_cons]
    rw [ih]
    cases het : e.key.storeType
    · have hone : (StrictStore.remove st [e.key]).sesArea = st.sesArea := by
        unfold StrictStore.remove
        simp only [List.foldl_cons, List.foldl_nil]
        rw [het]
        rfl
      rw [List.filter_cons_of_neg (by simp [het])]
      rw [hone]
    · have hone : (StrictStore.remove st [e.key]).sesArea
          = removeItem st.sesArea (getFullName e.key.ns e.key.name) := by
        unfold StrictStore.remove
        simp only [List.foldl_cons, List.foldl_nil]
        rw [het]
        rfl
      rw [List.filter_cons_of_pos (by simp [het])]
      simp only [List.foldl_cons]
      rw [hone]

theorem foldl_removeItem_map (es : List SEntry) (a : Area) :
    es.foldl (fun acc x => removeItem acc (getFullName x.key.ns x.key.name)) a
      = (es.map (fun x => getFullName x.key.ns x.key.name)).foldl removeItem a := by
  induction es generalizing a with
  | nil => rfl
  | cons x es ih =>
    simp only [List.foldl_cons, List.map_cons]
    exact ih _

theorem foldl_removeItem (ks : List String) (a : Area) :
    ks.foldl removeItem a = a.filter (fun e => !(ks.any (fun k2 => e.1 == k2))) := by
  induction ks generalizing a with
  | nil =>
    simp only [List.foldl_nil, List.any_nil, Bool.not_false]
    rw [List.filter_true]
  | cons k ks ih =>
    simp only [List.foldl_cons]
    rw [ih]
    unfold removeItem
    rw [List.filter_filter]
    apply List.filter_congr
    intro e _
    simp [List.any_cons, Bool.not_or, Bool.and_comm]

theorem any_removalKeys (a : Area) (st : StoreType) (e : String × Wire)
    (he : e ∈ a) :
    ((a.filterMap (StrictStore.entryOf st ["strict-store/"])).map
        (fun x => getFullName x.key.ns x.key.name)).any (fun k2 => e.1 == k2)
      = (parseStoreKeyStr e.1).isSome := by
  rcases hp : parseStoreKeyStr e.1 with _ | p
  · rw [List.any_eq_false.mpr]
    · rfl
    · intro k2 hk2
      obtain ⟨x, hxmem, hxeq⟩ := List.mem_map.mp hk2
      obtain ⟨e', he'mem, he'⟩ := List.mem_filterMap.mp hxmem
      rw [entryOf_eq] at he'
      rcases hp' : parseStoreKeyStr e'.1 with _ | p'
      · rw [hp'] at he'
        exact absurd he' (by simp)
      · obtain ⟨ns', nm'⟩ := p'
        rw [hp'] at he'
        simp only [Option.some_inj] at he'
        have hx1 : getFullName x.key.ns x.key.name = e'.1 := by
          rw [← he']
          exact (parseStoreKeyStr_spec hp').1
        intro hbeq
        have : e.1 = k2 := eq_of_beq hbeq
        rw [← hxeq, hx1] at this
        rw [this, hp'] at hp
        exact absurd hp (by simp)
  · obtain ⟨ns, name⟩ := p
    have hx : StrictStore.entryOf st ["strict-store/"] e
        = some ⟨⟨ns, name, st⟩, strictJsonParse e.2, st⟩ := by
      rw [entryOf_eq, hp]
    have hmem : (⟨⟨ns, name, st⟩, strictJsonParse e.2, st⟩ : SEntry)
        ∈ a.filterMap (StrictStore.entryOf st ["strict-store/"]) :=
      List.mem_filterMap.mpr ⟨e, he, hx⟩
    have hkey : getFullName ns name = e.1 := (parseStoreKeyStr_spec hp).1
    rw [List.any_eq_true.mpr]
    · rfl
    · refine ⟨e.1, ?_, by simp⟩
      exact List.mem_map.mpr ⟨_, hmem, hkey⟩

theorem clear_none_lclArea (s : StoreState) :
    (StrictStore.clear s none).lclArea
      = s.lclArea.filter (fun e => (parseStoreKeyStr e.1).isNone) := by
  have hc : StrictStore.clear s none
      = (StrictStore.getAll s none).foldl (fun acc e => StrictStore.remove acc [e.key]) s := rfl
  rw [hc, clearFold_lcl]
  have hfl : (StrictStore.getAll s none).filter (fun e => e.key.storeType == StoreType.lcl)
      = s.lclArea.filterMap (StrictStore.entryOf .lcl ["strict-store/"]) := by
    rw [getAll_none, List.filter_append]
    rw [List.filter_eq_self.mpr, List.filter_eq_nil.mpr, List.append_nil]
    · intro x hx
      rw [mem_filterMap_entryOf hx]
      simp
    · intro x hx
      rw [mem_filterMap_entryOf hx]
      simp
  rw [hfl, foldl_removeItem_map, foldl_removeItem]
  apply List.filter_congr
  intro e he
  rw [any_removalKeys s.lclArea .lcl e he]
  rcases parseStoreKeyStr e.1 with _ | p <;> rfl

theorem clear_none_sesArea (s : StoreState) :
    (StrictStore.clear s none).sesArea
      = s.sesArea.filter (fun e => (parseStoreKeyStr e.1).isNone) := by
  have hc : StrictStore.clear s none
      = (StrictStore.getAll s none).foldl (fun acc e => StrictStore.remove acc [e.key]) s := rfl
  rw [hc, clearFold_ses]
  have hfl : (StrictStore.getAll s none).filter (fun e => e.key.storeType == StoreType.ses)
      = s.sesArea.filterMap (StrictStore.entryOf .ses ["strict-store/"]) := by
    rw [getAll_none, List.filter_append]
    rw [List.filter_eq_nil.mpr, List.filter_eq_self.mpr, List.nil_append]
    · intro x hx
      rw [mem_filterMap_entryOf hx]
      simp
    · intro x hx
      rw [mem_filterMap_entryOf hx]
      simp
  rw [hfl, foldl_removeItem_map, foldl_removeItem]
  apply List.filter_congr
  intro e he
  rw [any_removalKeys s.sesArea .ses e he]
  rcases parseStoreKeyStr e.1 with _ | p <;> rfl

theorem parse_none_of_foreign {raw : String}
    (hs : strStarts raw "strict-store/" = false) :
    parseStoreKeyStr raw = none := by
  rcases hp : parseStoreKeyStr raw with _ | p
  · rfl
  · obtain ⟨a, b⟩ := p
    exact absurd (parseStoreKeyStr_spec hp).2.1 (by simp [hs])

/-- C7 (amended): getAll with an explicitly empty namespace list returns the
empty list immediately and clear([]) is a no-op; clear() with no argument
removes from both areas exactly the entries whose keys match the KEY_PATTERN
wire-key shape, leaving every foreign non-prefixed key untouched — but also
leaving untouched any prefix-carrying key that does not match the pattern
(see the counterexample). -/
theorem claim_C7_clear_semantics (s : StoreState) :
    StrictStore.getAll s (some []) = []
    ∧ StrictStore.clear s (some []) = s
    ∧ (StrictStore.clear s none).lclArea
        = s.lclArea.filter (fun e => (parseStoreKeyStr e.1).isNone)
    ∧ (StrictStore.clear s none).sesArea
        = s.sesArea.filter (fun e => (parseStoreKeyStr e.1).isNone)
    ∧ (∀ e ∈ s.lclArea, strStarts e.1 "strict-store/" = false →
        e ∈ (StrictStore.clear s none).lclArea)
    ∧ (∀ e ∈ s.sesArea, strStarts e.1 "strict-store/" = false →
        e ∈ (StrictStore.clear s none).sesArea) := by
  refine ⟨rfl, rfl, clear_none_lclArea s, clear_none_sesArea s, ?_, ?_⟩
  · intro e he hs
    rw [clear_none_lclArea s]
    rw [List.mem_filter]
    refine ⟨he, ?_⟩
    rw [parse_none_of_foreign hs]
    rfl
  · intro e he hs
    rw [clear_none_sesArea s]
    rw [List.mem_filter]
    refine ⟨he, ?_⟩
    rw [parse_none_of_foreign hs]
    rfl

theorem claim_C7_witness :
    StrictStore.getAll ⟨[("strict-store/a:b", ⟨"1", some (.num 1)⟩),
        ("foreign", ⟨"f", none⟩)], []⟩ (some []) = []
    ∧ StrictStore.clear ⟨[("strict-store/a:b", ⟨"1", some (.num 1)⟩),
        ("foreign", ⟨"f", none⟩)], []⟩ (some [])
      = ⟨[("strict-store/a:b", ⟨"1", some (.num 1)⟩), ("foreign", ⟨"f", none⟩)], []⟩
    ∧ (StrictStore.clear ⟨[("strict-store/a:b", ⟨"1", some (.num 1)⟩),
        ("foreign", ⟨"f", none⟩)], []⟩ none).lclArea
      = [("strict-store/a:b", ⟨"1", some (.num 1)⟩),
          ("foreign", ⟨"f", none⟩)].filter (fun e => (parseStoreKeyStr e.1).isNone)
    ∧ ("foreign", (⟨"f", none⟩ : Wire)) ∈ (StrictStore.clear
        ⟨[("strict-store/a:b", ⟨"1", some (.num 1)⟩), ("foreign", ⟨"f", none⟩)], []⟩
        none).lclArea :=
  ⟨(claim_C7_clear_semantics _).1,
   (claim_C7_clear_semantics _).2.1,
   (claim_C7_clear_semantics _).2.2.1,
   (claim_C7_clear_semantics ⟨[("strict-store/a:b", ⟨"1", some (.num 1)⟩),
        ("foreign", ⟨"f", none⟩)], []⟩).2.2.2.2.1 ("foreign", ⟨"f", none⟩)
      (List.mem_cons_of_mem _ (List.mem_cons_self _ _)) rfl⟩

theorem claim_C7_counterexample :
    strStarts "strict-store/abc" "strict-store/" = true
    ∧ StrictStore.clear ⟨[("strict-store/abc", ⟨"1", some (.num 1)⟩)], []⟩ none
        = ⟨[("strict-store/abc", ⟨"1", some (.num 1)⟩)], []⟩ :=
  ⟨rfl, rfl⟩

end SS
